import Mathlib

/-!
# cartographer: `PlyCustomWritingPointsProcessor`

A shallow embedding of `cartographer/io/ply_custom_writing_points_processor.cc`:
the PLY header renderer, the per-point binary encoders, and the `Process` /
`Flush` methods of the pipeline stage, followed by theorems about them.

Modelling conventions.

* Bytes are natural numbers below 256; `memcpy` of a scalar copies its object
  representation, taken little-endian (the file declares
  `format binary_little_endian`, so the code is written for such a host).
* `float` and `double` values are carried as their IEEE-754 bit patterns; the
  encoders only copy them, apart from the `float → uint8_t` conversion of the
  colour channels, which is computed exactly on the bit pattern.
* `CHECK`, `CHECK_EQ` and `LOG(FATAL)` abort the process: a method returns
  `Except.error` carrying the reason and the state reached at the abort.
* The `FileWriter` and the next `PointsProcessor` are external collaborators.
  Every call made on them is recorded, in order, in a trace; what a call
  answers is an arbitrary function of the calls made before it.
* `num_points_` is an `int64` that only ever counts up from 0; it is modelled
  as an unbounded integer (signed overflow would need 2^63 records).
-/

namespace cartographer
namespace io

/-! ## Data model -/

/-- A C++ `float`, as its IEEE-754 binary32 bit pattern (taken modulo 2^32). -/
structure Binary32 where
  bits : Nat
deriving DecidableEq, Repr

/-- A C++ `double`, as its IEEE-754 binary64 bit pattern (taken modulo 2^64). -/
structure Binary64 where
  bits : Nat
deriving DecidableEq, Repr

/-- `Eigen::Vector3f`: `point[0]`, `point[1]`, `point[2]`. -/
structure Vector3f where
  x : Binary32
  y : Binary32
  z : Binary32
deriving DecidableEq, Repr

/-- `RangefinderPoint`, the element type of `PointsBatch::points`. -/
structure RangefinderPoint where
  position : Vector3f
deriving DecidableEq, Repr

/-- `FloatColor`, a `std::array<float, 3>`: `color[0]`, `color[1]`, `color[2]`. -/
structure FloatColor where
  c0 : Binary32
  c1 : Binary32
  c2 : Binary32
deriving DecidableEq, Repr

/-- The fields of `PointsBatch` that the stage reads. `rings` holds `uint16_t`
values (taken modulo 2^16 when encoded). -/
structure PointsBatch where
  points : List RangefinderPoint
  colors : List FloatColor
  intensities : List Binary32
  rings : List Nat
  frame_id : String
  start_time_unix : Binary64
deriving DecidableEq, Repr

/-- `PointsProcessor::FlushResult`. -/
inductive FlushResult where
  | kRestartStream
  | kFinished
deriving DecidableEq, Repr

/-- One call made by the stage on a collaborator: the three `FileWriter`
operations, and `Process` / `Flush` on the next stage. -/
inductive Event where
  | WriteHeader (bytes : List Nat)
  | Write (bytes : List Nat)
  | Close
  | NextProcess (batch : PointsBatch)
  | NextFlush
deriving DecidableEq, Repr

/-- The calls made so far, oldest first. -/
abbrev Trace := List Event

/-- The `FileWriter` interface: the boolean each operation returns, as a
function of the calls made before it (and of the bytes handed over). -/
structure FileWriter where
  WriteHeader : Trace → List Nat → Bool
  Write : Trace → List Nat → Bool
  Close : Trace → Bool

/-- The next `PointsProcessor`: `Process` returns nothing, `Flush` returns a
`FlushResult` depending on the calls made before it. -/
structure PointsProcessor where
  Flush : Trace → FlushResult

/-- Why the process aborted. -/
inductive Fatal where
  | Check (expression : String)
  | CheckEq (message : String)
  | LogFatal (message : String)
deriving DecidableEq, Repr

/-! ## Scalars to bytes -/

/-- The object representation of a `width`-byte unsigned scalar `v` on a
little-endian host: byte `k` is `v / 256^k % 256`. -/
def memcpyBytes (width v : Nat) : List Nat :=
  (List.range width).map (fun k => v / 256 ^ k % 256)

/-- Truncation toward zero of a binary32 value, `none` for NaN and infinities. -/
def Binary32.truncate (f : Binary32) : Option Int :=
  let b := f.bits % 2 ^ 32
  let negative := b / 2 ^ 31 = 1
  let e := b / 2 ^ 23 % 256
  let m := b % 2 ^ 23
  if e = 255 then none
  else
    let magnitude : Nat :=
      if e = 0 then 0
      else if 150 ≤ e then (2 ^ 23 + m) * 2 ^ (e - 150)
      else (2 ^ 23 + m) / 2 ^ (150 - e)
    some (if negative then -(magnitude : Int) else (magnitude : Int))

/-- The conversion `uint8_t r = color[0]`: the value truncated toward zero.
Outside 0..255 the C++ conversion is undefined; the model keeps the low eight
bits there (and 0 for NaN and infinities). Always a single byte. -/
def Binary32.toUint8 (f : Binary32) : Nat :=
  match f.truncate with
  | some v => (v % 256).toNat
  | none => 0

/-- The bytes `out.data()`, `out.size()` of a `std::string` holding ASCII text:
one byte per character. -/
def stringBytes (s : String) : List Nat :=
  s.toList.map (fun c => c.toNat)

/-! ## Header rendering -/

/-- Decimal digits of `n`, most significant first, by repeated division;
`fuel` bounds the number of digits produced. -/
def decimalDigitsAux : Nat → Nat → List Char
  | 0, _ => []
  | fuel + 1, n =>
    if n < 10 then [Nat.digitChar n]
    else decimalDigitsAux fuel (n / 10) ++ [Nat.digitChar (n % 10)]

/-- Decimal digits of `n` (`n + 1` steps always suffice). -/
def decimalDigits (n : Nat) : List Char :=
  decimalDigitsAux (n + 1) n

/-- The text `stream << std::setw(width) << std::setfill(fill) << v` inserts
for an `int64` `v`: its decimal representation (with a leading `-` when
negative), preceded by as many `fill` characters as are needed to reach
`width` characters; never truncated. -/
def putInt64 (width : Nat) (fill : Char) (v : Int) : String :=
  let text : List Char :=
    if v < 0 then '-' :: decimalDigits v.natAbs else decimalDigits v.toNat
  String.mk (List.replicate (width - text.length) fill ++ text)

/-- Local `color_header` of `WriteCustomBinaryPlyHeader`. -/
def color_header (has_color : Bool) : String :=
  if !has_color then ""
  else "property uchar red\n" ++ "property uchar green\n" ++ "property uchar blue\n"

/-- Local `intensity_header` of `WriteCustomBinaryPlyHeader`. -/
def intensity_header (has_intensity : Bool) : String :=
  if !has_intensity then "" else "property float intensity\n"

/-- Local `ring_header` of `WriteCustomBinaryPlyHeader`. -/
def ring_header (has_ring : Bool) : String :=
  if !has_ring then "" else "property ushort ring\n"

/-- The string `out` that `WriteCustomBinaryPlyHeader` builds in `stream`. -/
def headerText (has_color has_intensity has_ring : Bool) (num_points : Int) : String :=
  "ply\n"
    ++ "format binary_little_endian 1.0\n"
    ++ "comment Point cloud hypnotized and smoothly lured from the basket by the almighty snake charmer: Kamikaze Viper\n"
    ++ "element vertex " ++ putInt64 15 '0' num_points
    ++ "\n"
    ++ "property float x\n"
    ++ "property float y\n"
    ++ "property float z\n"
    ++ color_header has_color
    ++ intensity_header has_intensity
    ++ "property double time\n"
    ++ ring_header has_ring ++ "end_header\n"

/-! ## Reading a header back -/

/-- The numeric value of a run of decimal digit characters. -/
def decimalValue (digits : List Char) : Nat :=
  digits.foldl (fun acc c => acc * 10 + (c.toNat - '0'.toNat)) 0

/-- The lines of a text: the runs between newline characters (a text ending in
a newline has an empty last line). -/
def splitLines : List Char → List (List Char)
  | [] => [[]]
  | c :: cs =>
    if c = '\n' then [] :: splitLines cs
    else
      match splitLines cs with
      | [] => [[c]]
      | line :: lines => (c :: line) :: lines

/-- The header up to and including `element vertex `. -/
def headerPrefix : List Char :=
  ("ply\n"
    ++ "format binary_little_endian 1.0\n"
    ++ "comment Point cloud hypnotized and smoothly lured from the basket by the almighty snake charmer: Kamikaze Viper\n"
    ++ "element vertex ").toList

/-- The header after the count field. -/
def headerSuffix (has_color has_intensity has_ring : Bool) : List Char :=
  ("\n"
    ++ "property float x\n"
    ++ "property float y\n"
    ++ "property float z\n"
    ++ color_header has_color
    ++ intensity_header has_intensity
    ++ "property double time\n"
    ++ ring_header has_ring ++ "end_header\n").toList

/-- The header after the newline that ends the count line. -/
def headerProperties (has_color has_intensity has_ring : Bool) : List Char :=
  ("property float x\n"
    ++ "property float y\n"
    ++ "property float z\n"
    ++ color_header has_color
    ++ intensity_header has_intensity
    ++ "property double time\n"
    ++ ring_header has_ring ++ "end_header\n").toList

/-! ## Calls on the file writer -/

/-- The statement `CHECK(file_writer->WriteHeader(data, size))`. -/
def checkWriteHeader (file_writer : FileWriter) (trace : Trace) (bytes : List Nat) :
    Except (Fatal × Trace) Trace :=
  if file_writer.WriteHeader trace bytes then .ok (trace ++ [Event.WriteHeader bytes])
  else .error (Fatal.Check "file_writer->WriteHeader(out.data(), out.size())",
    trace ++ [Event.WriteHeader bytes])

/-- The statement `CHECK(file_writer->Write(buffer, size))`. -/
def checkWrite (file_writer : FileWriter) (trace : Trace) (bytes : List Nat) :
    Except (Fatal × Trace) Trace :=
  if file_writer.Write trace bytes then .ok (trace ++ [Event.Write bytes])
  else .error (Fatal.Check "file_writer->Write(buffer, size)", trace ++ [Event.Write bytes])

/-- The statement `CHECK(file_->Close())`. -/
def checkClose (file_writer : FileWriter) (trace : Trace) : Except (Fatal × Trace) Trace :=
  if file_writer.Close trace then .ok (trace ++ [Event.Close])
  else .error (Fatal.Check "file_->Close()", trace ++ [Event.Close])

/-- Renders the header claiming `num_points` points and hands it to
`file_writer->WriteHeader`, aborting if that fails. -/
def WriteCustomBinaryPlyHeader (has_color has_intensity has_ring : Bool) (num_points : Int)
    (file_writer : FileWriter) (trace : Trace) : Except (Fatal × Trace) Trace :=
  let out := headerText has_color has_intensity has_ring num_points
  checkWriteHeader file_writer trace (stringBytes out)

/-- Copies `point[0]`, `point[1]`, `point[2]` into a 12-byte buffer and writes it. -/
def WriteCustomBinaryPlyPointCoordinate (point : Vector3f)
    (file_writer : FileWriter) (trace : Trace) : Except (Fatal × Trace) Trace :=
  let buffer := memcpyBytes 4 (point.x.bits % 2 ^ 32)
    ++ memcpyBytes 4 (point.y.bits % 2 ^ 32)
    ++ memcpyBytes 4 (point.z.bits % 2 ^ 32)
  checkWrite file_writer trace buffer

/-- Converts the three channels to `uint8_t` and writes them one byte at a
time, each write checked. -/
def WriteCustomBinaryPlyPointColor (color : FloatColor)
    (file_writer : FileWriter) (trace : Trace) : Except (Fatal × Trace) Trace := do
  let r := color.c0.toUint8
  let g := color.c1.toUint8
  let b := color.c2.toUint8
  let trace ← checkWrite file_writer trace (memcpyBytes 1 r)
  let trace ← checkWrite file_writer trace (memcpyBytes 1 g)
  checkWrite file_writer trace (memcpyBytes 1 b)

/-- Copies the `double` into an 8-byte buffer and writes it. -/
def WriteCustomBinaryPlyPointTime (time : Binary64)
    (file_writer : FileWriter) (trace : Trace) : Except (Fatal × Trace) Trace :=
  checkWrite file_writer trace (memcpyBytes 8 (time.bits % 2 ^ 64))

/-- Copies the `float` into a 4-byte buffer and writes it. -/
def WriteCustomBinaryPlyPointIntensity (intensity : Binary32)
    (file_writer : FileWriter) (trace : Trace) : Except (Fatal × Trace) Trace :=
  checkWrite file_writer trace (memcpyBytes 4 (intensity.bits % 2 ^ 32))

/-- Copies the `uint16_t` into a 2-byte buffer and writes it. -/
def WriteCustomBinaryPlyPointRing (ring : Nat)
    (file_writer : FileWriter) (trace : Trace) : Except (Fatal × Trace) Trace :=
  checkWrite file_writer trace (memcpyBytes 2 (ring % 2 ^ 16))

/-- A file writer whose every operation succeeds. -/
def acceptingFileWriter : FileWriter :=
  { WriteHeader := fun _ _ => true
    Write := fun _ _ => true
    Close := fun _ => true }

/-! ## The pipeline stage -/

/-- The members of `PlyCustomWritingPointsProcessor`, and the trace of the
calls it has made. -/
structure PlyCustomWritingPointsProcessor where
  next_ : PointsProcessor
  num_points_ : Int
  has_colors_ : Bool
  has_intensity_ : Bool
  has_rings_ : Bool
  file_ : FileWriter
  trace : Trace

namespace PlyCustomWritingPointsProcessor

/-- The constructor `PlyCustomWritingPointsProcessor(file_writer, next)`. -/
def create (file_writer : FileWriter) (next : PointsProcessor) :
    PlyCustomWritingPointsProcessor :=
  { next_ := next
    num_points_ := 0
    has_colors_ := false
    has_intensity_ := false
    has_rings_ := false
    file_ := file_writer
    trace := [] }

/-- Runs a call sequence on `file_` and stores the resulting trace. -/
def onFile (self : PlyCustomWritingPointsProcessor)
    (call : FileWriter → Trace → Except (Fatal × Trace) Trace) :
    Except (Fatal × PlyCustomWritingPointsProcessor) PlyCustomWritingPointsProcessor :=
  match call self.file_ self.trace with
  | .ok t => .ok { self with trace := t }
  | .error (f, t) => .error (f, { self with trace := t })

/-- The statement `CHECK_EQ(batch->points.size(), size) << message << batch->frame_id`. -/
def checkEq (self : PlyCustomWritingPointsProcessor) (points_size size : Nat)
    (message frame_id : String) :
    Except (Fatal × PlyCustomWritingPointsProcessor) PlyCustomWritingPointsProcessor :=
  if points_size = size then .ok self
  else .error (Fatal.CheckEq (message ++ frame_id), self)

/-- The body of the `for` loop of `Process`, for index `i`. The attribute
vectors are indexed without a bounds check; the preceding `CHECK_EQ`s make
every index valid, so the defaults below are never used. -/
def processPoint (self : PlyCustomWritingPointsProcessor) (batch : PointsBatch) (i : Nat) :
    Except (Fatal × PlyCustomWritingPointsProcessor) PlyCustomWritingPointsProcessor := do
  let self ← self.onFile
    (WriteCustomBinaryPlyPointCoordinate (batch.points.getD i ⟨⟨⟨0⟩, ⟨0⟩, ⟨0⟩⟩⟩).position)
  let self ←
    (if self.has_colors_ then
      self.onFile (WriteCustomBinaryPlyPointColor (batch.colors.getD i ⟨⟨0⟩, ⟨0⟩, ⟨0⟩⟩))
    else pure self)
  let self ←
    (if self.has_intensity_ then
      self.onFile (WriteCustomBinaryPlyPointIntensity (batch.intensities.getD i ⟨0⟩))
    else pure self)
  let self ← self.onFile (WriteCustomBinaryPlyPointTime batch.start_time_unix)
  let self ←
    (if self.has_rings_ then
      self.onFile (WriteCustomBinaryPlyPointRing (batch.rings.getD i 0))
    else pure self)
  pure { self with num_points_ := self.num_points_ + 1 }

/-- The loop `for (size_t i = 0; i < batch->points.size(); ++i)` of `Process`,
over the indices still to visit. -/
def processPoints (self : PlyCustomWritingPointsProcessor) (batch : PointsBatch) :
    List Nat → Except (Fatal × PlyCustomWritingPointsProcessor) PlyCustomWritingPointsProcessor
  | [] => pure self
  | i :: rest => do
    let self ← self.processPoint batch i
    self.processPoints batch rest

/-- `next_->Process(std::move(batch))`. -/
def forward (self : PlyCustomWritingPointsProcessor) (batch : PointsBatch) :
    PlyCustomWritingPointsProcessor :=
  { self with trace := self.trace ++ [Event.NextProcess batch] }

/-- `PlyCustomWritingPointsProcessor::Process`: an empty batch is forwarded at
once; otherwise the schema is taken from the batch and the placeholder header
written if `num_points_` is 0, the sizes of the attributes the schema carries
are checked, every point is encoded, and the batch is forwarded. -/
def Process (self : PlyCustomWritingPointsProcessor) (batch : PointsBatch) :
    Except (Fatal × PlyCustomWritingPointsProcessor) PlyCustomWritingPointsProcessor :=
  if batch.points.isEmpty then
    pure (self.forward batch)
  else do
    let self ←
      (if self.num_points_ = 0 then
        let self := { self with
          has_colors_ := !batch.colors.isEmpty
          has_intensity_ := !batch.intensities.isEmpty
          has_rings_ := !batch.rings.isEmpty }
        self.onFile (WriteCustomBinaryPlyHeader self.has_colors_ self.has_intensity_
          self.has_rings_ 0)
      else pure self)
    let self ←
      (if self.has_colors_ then
        self.checkEq batch.points.length batch.colors.length
          "First PointsBatch had colors, but encountered one without. frame_id: "
          batch.frame_id
      else pure self)
    let self ←
      (if self.has_intensity_ then
        self.checkEq batch.points.length batch.intensities.length
          "First PointsBatch had intesities, but encountered one without. frame_id: "
          batch.frame_id
      else pure self)
    let self ←
      (if self.has_rings_ then
        self.checkEq batch.points.length batch.rings.length
          "First PointsBatch had rings, but encountered one without. frame_id: "
          batch.frame_id
      else pure self)
    let self ← self.processPoints batch (List.range batch.points.length)
    pure (self.forward batch)

/-- `PlyCustomWritingPointsProcessor::Flush`: writes the header for
`num_points_`, closes the file, flushes the next stage and returns
`kFinished`, or aborts if the next stage asks for a restart. -/
def Flush (self : PlyCustomWritingPointsProcessor) :
    Except (Fatal × PlyCustomWritingPointsProcessor)
      (FlushResult × PlyCustomWritingPointsProcessor) := do
  let self ← self.onFile (WriteCustomBinaryPlyHeader self.has_colors_ self.has_intensity_
    self.has_rings_ self.num_points_)
  let self ← self.onFile checkClose
  let result := self.next_.Flush self.trace
  let self := { self with trace := self.trace ++ [Event.NextFlush] }
  match result with
  | FlushResult.kFinished => pure (FlushResult.kFinished, self)
  | FlushResult.kRestartStream =>
    throw (Fatal.LogFatal
      ("PLY generation must be configured to occur after any "
        ++ "stages that require multiple passes."), self)

/-- A sequence of `Process` calls, one per batch, stopping at the first abort. -/
def processAll (self : PlyCustomWritingPointsProcessor) :
    List PointsBatch → Except (Fatal × PlyCustomWritingPointsProcessor)
      PlyCustomWritingPointsProcessor
  | [] => pure self
  | batch :: rest => do
    let self ← self.Process batch
    self.processAll rest

end PlyCustomWritingPointsProcessor

/-! ## Observations on a trace -/

/-- The bytes appended to the file body: the concatenation, in call order, of
the buffers handed to `FileWriter::Write`. -/
def bodyBytes : Trace → List Nat
  | [] => []
  | Event.Write bytes :: rest => bytes ++ bodyBytes rest
  | _ :: rest => bodyBytes rest

/-- The buffers handed to `FileWriter::WriteHeader`, in call order. -/
def headerWrites : Trace → List (List Nat)
  | [] => []
  | Event.WriteHeader bytes :: rest => bytes :: headerWrites rest
  | _ :: rest => headerWrites rest

/-- The batches handed to the next stage, in call order. -/
def forwarded : Trace → List PointsBatch
  | [] => []
  | Event.NextProcess batch :: rest => batch :: forwarded rest
  | _ :: rest => forwarded rest

/-- The size of one record as the specification gives it:
12 + 3·has_color + 4·has_intensity + 8 + 2·has_ring. -/
def record_size (has_color has_intensity has_ring : Bool) : Nat :=
  12 + 3 * has_color.toNat + 4 * has_intensity.toNat + 8 + 2 * has_ring.toNat

/-- The total number of points of a sequence of batches. -/
def totalPoints (batches : List PointsBatch) : Nat :=
  (batches.map (fun batch => batch.points.length)).sum

/-- The record of point `i` of a batch as the specification lays it out:
x, y, z (4 bytes each), then red, green, blue (1 byte each) if `has_color`,
then intensity (4 bytes) if `has_intensity`, then the batch timestamp
(8 bytes), then the ring id (2 bytes) if `has_ring`. -/
def recordBytes (has_color has_intensity has_ring : Bool) (batch : PointsBatch) (i : Nat) :
    List Nat :=
  memcpyBytes 4 ((batch.points.getD i ⟨⟨⟨0⟩, ⟨0⟩, ⟨0⟩⟩⟩).position.x.bits % 2 ^ 32)
    ++ memcpyBytes 4 ((batch.points.getD i ⟨⟨⟨0⟩, ⟨0⟩, ⟨0⟩⟩⟩).position.y.bits % 2 ^ 32)
    ++ memcpyBytes 4 ((batch.points.getD i ⟨⟨⟨0⟩, ⟨0⟩, ⟨0⟩⟩⟩).position.z.bits % 2 ^ 32)
    ++ (if has_color then
          [(batch.colors.getD i ⟨⟨0⟩, ⟨0⟩, ⟨0⟩⟩).c0.toUint8,
            (batch.colors.getD i ⟨⟨0⟩, ⟨0⟩, ⟨0⟩⟩).c1.toUint8,
            (batch.colors.getD i ⟨⟨0⟩, ⟨0⟩, ⟨0⟩⟩).c2.toUint8]
        else [])
    ++ (if has_intensity then memcpyBytes 4 ((batch.intensities.getD i ⟨0⟩).bits % 2 ^ 32)
        else [])
    ++ memcpyBytes 8 (batch.start_time_unix.bits % 2 ^ 64)
    ++ (if has_ring then memcpyBytes 2 (batch.rings.getD i 0 % 2 ^ 16) else [])

/-- The `FileWriter::Write` calls the loop body of `Process` makes for point
`i` under the given flags, when none of them fails. -/
def pointEvents (has_colors has_intensity has_rings : Bool) (batch : PointsBatch) (i : Nat) :
    Trace :=
  [Event.Write
      (memcpyBytes 4 ((batch.points.getD i ⟨⟨⟨0⟩, ⟨0⟩, ⟨0⟩⟩⟩).position.x.bits % 2 ^ 32)
        ++ memcpyBytes 4 ((batch.points.getD i ⟨⟨⟨0⟩, ⟨0⟩, ⟨0⟩⟩⟩).position.y.bits % 2 ^ 32)
        ++ memcpyBytes 4 ((batch.points.getD i ⟨⟨⟨0⟩, ⟨0⟩, ⟨0⟩⟩⟩).position.z.bits % 2 ^ 32))]
    ++ (if has_colors then
          [Event.Write (memcpyBytes 1 (batch.colors.getD i ⟨⟨0⟩, ⟨0⟩, ⟨0⟩⟩).c0.toUint8),
            Event.Write (memcpyBytes 1 (batch.colors.getD i ⟨⟨0⟩, ⟨0⟩, ⟨0⟩⟩).c1.toUint8),
            Event.Write (memcpyBytes 1 (batch.colors.getD i ⟨⟨0⟩, ⟨0⟩, ⟨0⟩⟩).c2.toUint8)]
        else [])
    ++ (if has_intensity then
          [Event.Write (memcpyBytes 4 ((batch.intensities.getD i ⟨0⟩).bits % 2 ^ 32))]
        else [])
    ++ [Event.Write (memcpyBytes 8 (batch.start_time_unix.bits % 2 ^ 64))]
    ++ (if has_rings then [Event.Write (memcpyBytes 2 (batch.rings.getD i 0 % 2 ^ 16))]
        else [])

namespace PlyCustomWritingPointsProcessor

/-- The stage after further calls `events` have been recorded. -/
def record (self : PlyCustomWritingPointsProcessor) (events : Trace) :
    PlyCustomWritingPointsProcessor :=
  { self with trace := self.trace ++ events }

/-- The schema decision at the head of `Process` for a non-empty batch: the
three flags are taken from the batch when `num_points_` is 0, and kept
otherwise. -/
def lockSchema (self : PlyCustomWritingPointsProcessor) (batch : PointsBatch) :
    PlyCustomWritingPointsProcessor :=
  if self.num_points_ = 0 then
    { self with
      has_colors_ := !batch.colors.isEmpty
      has_intensity_ := !batch.intensities.isEmpty
      has_rings_ := !batch.rings.isEmpty }
  else self

/-- The placeholder header write of `Process`: made exactly when `num_points_`
is 0. -/
def placeholderEvents (self : PlyCustomWritingPointsProcessor) (batch : PointsBatch) : Trace :=
  if self.num_points_ = 0 then
    [Event.WriteHeader (stringBytes (headerText (!batch.colors.isEmpty)
      (!batch.intensities.isEmpty) (!batch.rings.isEmpty) 0))]
  else []

end PlyCustomWritingPointsProcessor

namespace PlyCustomWritingPointsProcessor

/-- The state a `Process` run ends in, whether it returned or aborted. -/
def finalState
    (r : Except (Fatal × PlyCustomWritingPointsProcessor) PlyCustomWritingPointsProcessor) :
    PlyCustomWritingPointsProcessor :=
  match r with
  | .ok s => s
  | .error (_, s) => s

/-- The relation between the counter, the body and the header writes that every
run of a fresh stage maintains: the counter is not negative, the body holds
one record of the current schema per counted point, and the placeholder header
has been written exactly when the counter has left 0. -/
def Consistent (s : PlyCustomWritingPointsProcessor) : Prop :=
  0 ≤ s.num_points_
    ∧ (bodyBytes s.trace).length
        = s.num_points_.toNat * record_size s.has_colors_ s.has_intensity_ s.has_rings_
    ∧ headerWrites s.trace
        = if s.num_points_ = 0 then []
          else [stringBytes (headerText s.has_colors_ s.has_intensity_ s.has_rings_ 0)]

end PlyCustomWritingPointsProcessor

/-! ## Sample data -/

/-- A next stage whose `Flush` reports `kFinished`. -/
def finishingNext : PointsProcessor :=
  { Flush := fun _ => FlushResult.kFinished }

/-- The point (1, 2, 3): the binary32 patterns of 1.0, 2.0 and 3.0. -/
def point123 : RangefinderPoint :=
  ⟨⟨⟨0x3F800000⟩, ⟨0x40000000⟩, ⟨0x40400000⟩⟩⟩

/-- One point (1, 2, 3), no colour, intensity or ring, timestamp 5.0 (binary64
pattern 0x4014000000000000). -/
def plainBatch : PointsBatch :=
  { points := [point123]
    colors := []
    intensities := []
    rings := []
    frame_id := "laser"
    start_time_unix := ⟨0x4014000000000000⟩ }

/-- Two points with colours (255, 128, 0) and (1, 2, 3) and rings 7 and 258,
timestamp 5.0. -/
def colorRingBatch : PointsBatch :=
  { points := [point123, point123]
    colors := [⟨⟨0x437F0000⟩, ⟨0x43000000⟩, ⟨0⟩⟩, ⟨⟨0x3F800000⟩, ⟨0x40000000⟩, ⟨0x40400000⟩⟩]
    intensities := []
    rings := [7, 258]
    frame_id := "laser"
    start_time_unix := ⟨0x4014000000000000⟩ }

/-- One point with a colour and no ring. -/
def colorBatch : PointsBatch :=
  { points := [point123]
    colors := [⟨⟨0x437F0000⟩, ⟨0x43000000⟩, ⟨0⟩⟩]
    intensities := []
    rings := []
    frame_id := "camera"
    start_time_unix := ⟨0x4014000000000000⟩ }

/-! ## Property declarations and record fields -/

/-- The words of a line: the runs between space characters. -/
def splitWords : List Char → List (List Char)
  | [] => [[]]
  | c :: cs =>
    if c = ' ' then [] :: splitWords cs
    else
      match splitWords cs with
      | [] => [[c]]
      | word :: words => (c :: word) :: words

/-- A header line of the form `property <type> <name>`, read as the pair
(type, name); `none` for any other line. -/
def parseProperty (line : List Char) : Option (List Char × List Char) :=
  match splitWords line with
  | [keyword, type, name] => if keyword = "property".toList then some (type, name) else none
  | _ => none

/-- The property declarations of a header, in the order they appear. -/
def propertyLines (header : List Char) : List (List Char × List Char) :=
  (splitLines header).filterMap parseProperty

/-- The byte width of a PLY scalar type. -/
def plyTypeWidth (type : List Char) : Option Nat :=
  if type = "uchar".toList then some 1
  else if type = "ushort".toList then some 2
  else if type = "float".toList then some 4
  else if type = "double".toList then some 8
  else none

/-- The fields a record can hold. -/
inductive Field where
  | x | y | z | red | green | blue | intensity | time | ring
deriving DecidableEq, Repr

/-- The name under which the header declares a field. -/
def Field.name : Field → String
  | .x => "x"
  | .y => "y"
  | .z => "z"
  | .red => "red"
  | .green => "green"
  | .blue => "blue"
  | .intensity => "intensity"
  | .time => "time"
  | .ring => "ring"

/-- The PLY type of a field as the specification gives it: 32-bit float
position and intensity, 8-bit unsigned colour channels, 64-bit float time,
16-bit unsigned ring id. -/
def Field.plyType : Field → String
  | .x => "float"
  | .y => "float"
  | .z => "float"
  | .red => "uchar"
  | .green => "uchar"
  | .blue => "uchar"
  | .intensity => "float"
  | .time => "double"
  | .ring => "ushort"

/-- The field order of one record as the specification enumerates it:
position, then colour if present, then intensity if present, then time, then
ring if present. -/
def recordLayout (has_color has_intensity has_ring : Bool) : List Field :=
  [Field.x, Field.y, Field.z]
    ++ (if has_color then [Field.red, Field.green, Field.blue] else [])
    ++ (if has_intensity then [Field.intensity] else [])
    ++ [Field.time]
    ++ (if has_ring then [Field.ring] else [])

/-- The bytes the encoders copy out for one field of point `i`: `point[0]`,
`point[1]`, `point[2]` for x, y, z; the converted `color[0]`, `color[1]`,
`color[2]` for red, green, blue; `intensities[i]`; `start_time_unix`;
`rings[i]`. -/
def Field.bytes (field : Field) (batch : PointsBatch) (i : Nat) : List Nat :=
  match field with
  | .x => memcpyBytes 4 ((batch.points.getD i ⟨⟨⟨0⟩, ⟨0⟩, ⟨0⟩⟩⟩).position.x.bits % 2 ^ 32)
  | .y => memcpyBytes 4 ((batch.points.getD i ⟨⟨⟨0⟩, ⟨0⟩, ⟨0⟩⟩⟩).position.y.bits % 2 ^ 32)
  | .z => memcpyBytes 4 ((batch.points.getD i ⟨⟨⟨0⟩, ⟨0⟩, ⟨0⟩⟩⟩).position.z.bits % 2 ^ 32)
  | .red => memcpyBytes 1 (batch.colors.getD i ⟨⟨0⟩, ⟨0⟩, ⟨0⟩⟩).c0.toUint8
  | .green => memcpyBytes 1 (batch.colors.getD i ⟨⟨0⟩, ⟨0⟩, ⟨0⟩⟩).c1.toUint8
  | .blue => memcpyBytes 1 (batch.colors.getD i ⟨⟨0⟩, ⟨0⟩, ⟨0⟩⟩).c2.toUint8
  | .intensity => memcpyBytes 4 ((batch.intensities.getD i ⟨0⟩).bits % 2 ^ 32)
  | .time => memcpyBytes 8 (batch.start_time_unix.bits % 2 ^ 64)
  | .ring => memcpyBytes 2 (batch.rings.getD i 0 % 2 ^ 16)

/-- The point count a header declares: the decimal value of what follows
`element vertex ` on the first line that starts so. -/
def declaredCount (header : List Char) : Option Nat :=
  (splitLines header).findSome? (fun line =>
    if "element vertex ".toList.isPrefixOf line then
      some (decimalValue (line.drop "element vertex ".length))
    else none)

namespace PlyCustomWritingPointsProcessor

/-- The state a `Flush` call ends in, whether it returned or aborted. -/
def flushState
    (r : Except (Fatal × PlyCustomWritingPointsProcessor)
      (FlushResult × PlyCustomWritingPointsProcessor)) :
    PlyCustomWritingPointsProcessor :=
  match r with
  | .ok (_, s) => s
  | .error (_, s) => s

end PlyCustomWritingPointsProcessor

/-- Tells whether a call is made on the file writer. -/
def Event.isSinkCall : Event → Bool
  | .WriteHeader _ => true
  | .Write _ => true
  | .Close => true
  | _ => false

/-- Tells whether a call is `FileWriter::Write`. -/
def Event.isWrite : Event → Bool
  | .Write _ => true
  | _ => false

/-- The calls made on the file writer, in call order. -/
def sinkCalls (trace : Trace) : Trace :=
  trace.filter Event.isSinkCall

/-- The three schema flags of a stage. -/
def PlyCustomWritingPointsProcessor.schema (self : PlyCustomWritingPointsProcessor) :
    Bool × Bool × Bool :=
  (self.has_colors_, self.has_intensity_, self.has_rings_)

/-- A batch without points that still carries a colour and a ring. -/
def emptyBatch : PointsBatch :=
  { points := []
    colors := [⟨⟨0x437F0000⟩, ⟨0x43000000⟩, ⟨0⟩⟩]
    intensities := []
    rings := [1, 2, 3]
    frame_id := "idle"
    start_time_unix := ⟨0⟩ }

/-- A next stage whose `Flush` asks for the stream to be restarted. -/
def restartingNext : PointsProcessor :=
  { Flush := fun _ => FlushResult.kRestartStream }

/-- The order of the calls made on the file writer that every run of a fresh
stage maintains: none while the counter is 0; afterwards the placeholder
header of the current schema first, and then `Write` calls only. -/
def PlyCustomWritingPointsProcessor.SinkOrdered (s : PlyCustomWritingPointsProcessor) :
    Prop :=
  0 ≤ s.num_points_
    ∧ if s.num_points_ = 0 then sinkCalls s.trace = []
      else ∃ writes, sinkCalls s.trace
            = Event.WriteHeader (stringBytes
                (headerText s.has_colors_ s.has_intensity_ s.has_rings_ 0)) :: writes
          ∧ ∀ e ∈ writes, e.isWrite = true

/-- Tells whether an abort is a failed `CHECK_EQ`, that is, a schema violation. -/
def Fatal.isCheckEq : Fatal → Bool
  | .CheckEq _ => true
  | _ => false


/-- The text that a sequence of bytes spells, one character per byte. -/
def bytesText (bytes : List Nat) : List Char :=
  bytes.map Char.ofNat

/-- A stage whose counter has reached 10^15, with a file writer that accepts
every call and a next stage that reports `kFinished`. -/
def overflowingStage : PlyCustomWritingPointsProcessor :=
  { PlyCustomWritingPointsProcessor.create acceptingFileWriter finishingNext with
    num_points_ := 10 ^ 15 }


/-! # Theorems -/

/-! ## Lemmas on decimal rendering -/

theorem digitChar_toNat : ∀ d, d < 10 → (Nat.digitChar d).toNat - '0'.toNat = d := by
  decide

theorem digitChar_isDigit : ∀ d, d < 10 → (Nat.digitChar d).isDigit = true := by
  decide

theorem decimalValue_append_singleton (l : List Char) (c : Char) :
    decimalValue (l ++ [c]) = decimalValue l * 10 + (c.toNat - '0'.toNat) := by
  simp [decimalValue, List.foldl_append]

theorem decimalValue_replicate_zero (k : Nat) (l : List Char) :
    decimalValue (List.replicate k '0' ++ l) = decimalValue l := by
  induction k with
  | zero => simp
  | succ k ih =>
    simp only [List.replicate_succ, List.cons_append]
    simpa [decimalValue] using ih

theorem decimalDigitsAux_value (fuel : Nat) :
    ∀ n, n < fuel → decimalValue (decimalDigitsAux fuel n) = n := by
  induction fuel with
  | zero => intro n h; omega
  | succ fuel ih =>
    intro n h
    unfold decimalDigitsAux
    split
    · next h10 => simpa [decimalValue] using digitChar_toNat n h10
    · next h10 =>
      rw [decimalValue_append_singleton, ih (n / 10) (by omega),
        digitChar_toNat (n % 10) (Nat.mod_lt _ (by decide))]
      omega

theorem decimalDigitsAux_isDigit (fuel : Nat) :
    ∀ n, ∀ c ∈ decimalDigitsAux fuel n, c.isDigit = true := by
  induction fuel with
  | zero => intro n c h; simp [decimalDigitsAux] at h
  | succ fuel ih =>
    intro n c h
    unfold decimalDigitsAux at h
    split at h
    · next h10 =>
      simp only [List.mem_singleton] at h
      subst h
      exact digitChar_isDigit n h10
    · next h10 =>
      simp only [List.mem_append, List.mem_singleton] at h
      rcases h with h | h
      · exact ih _ c h
      · subst h
        exact digitChar_isDigit _ (Nat.mod_lt _ (by decide))

theorem decimalDigitsAux_length_le (fuel : Nat) :
    ∀ n k, n < 10 ^ (k + 1) → (decimalDigitsAux fuel n).length ≤ k + 1 := by
  induction fuel with
  | zero => intro n k _; simp [decimalDigitsAux]
  | succ fuel ih =>
    intro n k h
    unfold decimalDigitsAux
    split
    · simp
    · next h10 =>
      cases k with
      | zero => simp at h; omega
      | succ k =>
        have : n / 10 < 10 ^ (k + 1) := by
          rw [Nat.div_lt_iff_lt_mul (by decide)]
          rw [pow_succ] at h
          exact h
        have := ih (n / 10) k this
        simp only [List.length_append, List.length_singleton]
        omega

theorem decimalDigitsAux_length_ge (fuel : Nat) :
    ∀ n k, n < fuel → 10 ^ k ≤ n → k + 1 ≤ (decimalDigitsAux fuel n).length := by
  induction fuel with
  | zero => intro n k h; omega
  | succ fuel ih =>
    intro n k hf h
    unfold decimalDigitsAux
    split
    · next h10 =>
      cases k with
      | zero => simp
      | succ k =>
        have : 10 ≤ 10 ^ (k + 1) := by
          calc 10 = 10 ^ 1 := by norm_num
            _ ≤ 10 ^ (k + 1) := Nat.pow_le_pow_right (by decide) (by omega)
        omega
    · next h10 =>
      simp only [List.length_append, List.length_singleton]
      cases k with
      | zero => omega
      | succ k =>
        have h2 : 10 ^ k ≤ n / 10 := by
          rw [Nat.le_div_iff_mul_le (by decide)]
          rw [pow_succ] at h
          exact h
        have := ih (n / 10) k (by omega) h2
        omega

/-! ## Lemmas on the header text -/

theorem splitLines_append_newline (a b : List Char) (h : '\n' ∉ a) :
    splitLines (a ++ '\n' :: b) = a :: splitLines b := by
  induction a with
  | nil => simp [splitLines]
  | cons c cs ih =>
    have hc : c ≠ '\n' := fun e => h (by simp [e])
    have hcs : '\n' ∉ cs := fun e => h (by simp [e])
    simp [splitLines, hc, ih hcs]

theorem isDigit_ne_newline (c : Char) (h : c.isDigit = true) : c ≠ '\n' := by
  intro e
  subst e
  exact absurd h (by decide)

theorem headerText_toList (hc hi hr : Bool) (n : Int) :
    (headerText hc hi hr n).toList
      = headerPrefix ++ (putInt64 15 '0' n).toList ++ headerSuffix hc hi hr := by
  simp only [headerText, headerPrefix, headerSuffix, String.toList, String.data_append,
    List.append_assoc]

theorem putInt64_toList_nonneg (width : Nat) (fill : Char) (n : Int) (h : 0 ≤ n) :
    (putInt64 width fill n).toList
      = List.replicate (width - (decimalDigits n.toNat).length) fill
          ++ decimalDigits n.toNat := by
  simp [putInt64, String.toList, not_lt.mpr h]

theorem decimalDigits_length_le (n k : Nat) (h : n < 10 ^ (k + 1)) :
    (decimalDigits n).length ≤ k + 1 :=
  decimalDigitsAux_length_le (n + 1) n k h

theorem decimalDigits_length_ge (n k : Nat) (h : 10 ^ k ≤ n) :
    k + 1 ≤ (decimalDigits n).length :=
  decimalDigitsAux_length_ge (n + 1) n k (by omega) h

theorem stringBytes_length (s : String) : (stringBytes s).length = s.toList.length := by
  simp [stringBytes]

theorem headerBytes_length (hc hi hr : Bool) (n : Int) :
    (stringBytes (headerText hc hi hr n)).length
      = headerPrefix.length + (putInt64 15 '0' n).toList.length
          + (headerSuffix hc hi hr).length := by
  rw [stringBytes_length, headerText_toList]
  simp only [List.length_append]

theorem putInt64_length_small (n : Int) (h0 : 0 ≤ n) (h1 : n ≤ 10 ^ 15 - 1) :
    (putInt64 15 '0' n).toList.length = 15 := by
  have hn : n.toNat < 10 ^ (14 + 1) := by
    have : (n.toNat : Int) = n := Int.toNat_of_nonneg h0
    have h2 : (n.toNat : Int) < ((10 ^ 15 : Nat) : Int) := by
      rw [this]; push_cast; omega
    exact_mod_cast h2
  have := decimalDigits_length_le n.toNat 14 hn
  rw [putInt64_toList_nonneg 15 '0' n h0]
  simp only [List.length_append, List.length_replicate]
  omega

theorem headerSuffix_eq (hc hi hr : Bool) :
    headerSuffix hc hi hr = '\n' :: headerProperties hc hi hr := by
  cases hc <;> cases hi <;> cases hr <;> rfl

theorem putInt64_digits_small (n : Int) (h0 : 0 ≤ n) (h1 : n ≤ 10 ^ 15 - 1) :
    (putInt64 15 '0' n).toList.length = 15
      ∧ (∀ c ∈ (putInt64 15 '0' n).toList, c.isDigit = true)
      ∧ (decimalValue (putInt64 15 '0' n).toList : Int) = n := by
  refine ⟨putInt64_length_small n h0 h1, ?_, ?_⟩
  · intro c hc
    rw [putInt64_toList_nonneg 15 '0' n h0, List.mem_append] at hc
    rcases hc with hc | hc
    · rw [List.eq_of_mem_replicate hc]; decide
    · exact decimalDigitsAux_isDigit _ _ c hc
  · rw [putInt64_toList_nonneg 15 '0' n h0, decimalValue_replicate_zero]
    unfold decimalDigits
    rw [decimalDigitsAux_value _ _ (Nat.lt_succ_self _)]
    exact Int.toNat_of_nonneg h0

theorem headerLines (hc hi hr : Bool) (n : Int) (h0 : 0 ≤ n) :
    splitLines (headerText hc hi hr n).toList
      = "ply".toList
        :: "format binary_little_endian 1.0".toList
        :: "comment Point cloud hypnotized and smoothly lured from the basket by the almighty snake charmer: Kamikaze Viper".toList
        :: ("element vertex ".toList ++ (putInt64 15 '0' n).toList)
        :: splitLines (headerProperties hc hi hr) := by
  have hp : headerPrefix
      = "ply".toList ++ '\n' :: ("format binary_little_endian 1.0".toList ++ '\n' ::
          ("comment Point cloud hypnotized and smoothly lured from the basket by the almighty snake charmer: Kamikaze Viper".toList
            ++ '\n' :: "element vertex ".toList)) := by rfl
  have hfield : '\n' ∉ "element vertex ".toList ++ (putInt64 15 '0' n).toList := by
    intro hmem
    rw [List.mem_append] at hmem
    rcases hmem with hmem | hmem
    · exact absurd hmem (by decide)
    · rw [putInt64_toList_nonneg 15 '0' n h0, List.mem_append] at hmem
      rcases hmem with hmem | hmem
      · exact absurd (List.eq_of_mem_replicate hmem) (by decide)
      · exact isDigit_ne_newline _ (decimalDigitsAux_isDigit _ _ _ hmem) rfl
  rw [headerText_toList, headerSuffix_eq, hp]
  simp only [List.append_assoc, List.cons_append]
  rw [splitLines_append_newline _ _ (by decide), splitLines_append_newline _ _ (by decide),
    splitLines_append_newline _ _ (by decide)]
  rw [← List.append_assoc, splitLines_append_newline _ _ hfield]

theorem headerProperties_end (hc hi hr : Bool) :
    splitLines (headerProperties hc hi hr)
      = (splitLines (headerProperties hc hi hr)).dropLast.dropLast
          ++ ["end_header".toList, []] := by
  cases hc <;> cases hi <;> cases hr <;> decide

theorem exists_init_cons {α : Type} (a : α) (l t : List α) (h : ∃ init, l = init ++ t) :
    ∃ init, a :: l = init ++ t := by
  obtain ⟨init, rfl⟩ := h
  exact ⟨a :: init, rfl⟩

theorem headerBytes_length_small (hc hi hr : Bool) (n : Int) (h0 : 0 ≤ n)
    (h1 : n ≤ 10 ^ 15 - 1) :
    (stringBytes (headerText hc hi hr n)).length
      = headerPrefix.length + 15 + (headerSuffix hc hi hr).length := by
  rw [headerBytes_length, putInt64_length_small n h0 h1]

/-- C1: for every schema and every count 0 ≤ n ≤ 10^15 − 1, the header
rendered for n has the same byte length as the header rendered for 0. -/
theorem header_length_independent_of_count (has_color has_intensity has_ring : Bool)
    (n : Int) (h0 : 0 ≤ n) (h1 : n ≤ 10 ^ 15 - 1) :
    (stringBytes (headerText has_color has_intensity has_ring n)).length
      = (stringBytes (headerText has_color has_intensity has_ring 0)).length := by
  rw [headerBytes_length_small _ _ _ n h0 h1,
    headerBytes_length_small _ _ _ 0 (le_refl 0) (by norm_num)]

theorem header_length_independent_of_count_witness :
    (0 : Int) ≤ 987654321 ∧ (987654321 : Int) ≤ 10 ^ 15 - 1
      ∧ (stringBytes (headerText true false true 987654321)).length
          = (stringBytes (headerText true false true 0)).length :=
  ⟨by decide, by decide,
    header_length_independent_of_count true false true 987654321 (by decide) (by decide)⟩

/-- C2: for every schema and every count 0 ≤ n ≤ 10^15 − 1, the first line of
the header is "ply", its last line is "end_header" (newline-terminated), and it
has a line made of "element vertex " followed by exactly 15 decimal digits
whose value is n. -/
theorem header_lines_ply_count_end (has_color has_intensity has_ring : Bool)
    (n : Int) (h0 : 0 ≤ n) (h1 : n ≤ 10 ^ 15 - 1) :
    (splitLines (headerText has_color has_intensity has_ring n).toList).head?
        = some "ply".toList
      ∧ (∃ init, splitLines (headerText has_color has_intensity has_ring n).toList
          = init ++ ["end_header".toList, []])
      ∧ ∃ digits, ("element vertex ".toList ++ digits)
            ∈ splitLines (headerText has_color has_intensity has_ring n).toList
          ∧ digits.length = 15
          ∧ (∀ c ∈ digits, c.isDigit = true)
          ∧ (decimalValue digits : Int) = n := by
  rw [headerLines _ _ _ n h0]
  refine ⟨rfl, ?_, (putInt64 15 '0' n).toList, ?_, putInt64_digits_small n h0 h1⟩
  · exact exists_init_cons _ _ _ (exists_init_cons _ _ _ (exists_init_cons _ _ _
      (exists_init_cons _ _ _ ⟨_, headerProperties_end has_color has_intensity has_ring⟩)))
  · simp

theorem header_lines_ply_count_end_witness :
    (splitLines (headerText false true false 42).toList).head? = some "ply".toList
      ∧ (∃ init, splitLines (headerText false true false 42).toList
          = init ++ ["end_header".toList, []])
      ∧ ∃ digits, ("element vertex ".toList ++ digits)
            ∈ splitLines (headerText false true false 42).toList
          ∧ digits.length = 15
          ∧ (∀ c ∈ digits, c.isDigit = true)
          ∧ (decimalValue digits : Int) = 42 :=
  header_lines_ply_count_end false true false 42 (by decide) (by decide)

theorem putInt64_toList_large (n : Int) (h : 10 ^ 15 ≤ n) :
    (putInt64 15 '0' n).toList = decimalDigits n.toNat
      ∧ 15 < (decimalDigits n.toNat).length := by
  have h0 : 0 ≤ n := le_trans (by norm_num) h
  have hn : 10 ^ 15 ≤ n.toNat := by
    have h2 : ((10 ^ 15 : Nat) : Int) ≤ (n.toNat : Int) := by
      rw [Int.toNat_of_nonneg h0]; push_cast; exact h
    exact_mod_cast h2
  have hlen := decimalDigits_length_ge n.toNat 15 hn
  refine ⟨?_, by omega⟩
  rw [putInt64_toList_nonneg 15 '0' n h0]
  have : 15 - (decimalDigits n.toNat).length = 0 := by omega
  rw [this]
  rfl

/-! ## The bytes of a header -/

theorem bytesText_stringBytes (s : String) : bytesText (stringBytes s) = s.toList := by
  have h : ∀ l : List Char, (l.map (fun c => c.toNat)).map Char.ofNat = l := by
    intro l
    induction l with
    | nil => rfl
    | cons c cs ih => simp [ih]
  exact h s.toList

theorem digitChar_ascii : ∀ d, d < 10 → (Nat.digitChar d).toNat < 128 := by
  decide

theorem decimalDigitsAux_ascii (fuel : Nat) :
    ∀ n, ∀ c ∈ decimalDigitsAux fuel n, c.toNat < 128 := by
  induction fuel with
  | zero => intro n c h; simp [decimalDigitsAux] at h
  | succ fuel ih =>
    intro n c h
    unfold decimalDigitsAux at h
    split at h
    · next h10 =>
      simp only [List.mem_singleton] at h
      subst h
      exact digitChar_ascii n h10
    · next h10 =>
      simp only [List.mem_append, List.mem_singleton] at h
      rcases h with h | h
      · exact ih _ c h
      · subst h
        exact digitChar_ascii _ (Nat.mod_lt _ (by decide))

set_option maxRecDepth 8000 in
theorem headerPrefix_ascii : ∀ c ∈ headerPrefix, c.toNat < 128 := by
  decide

set_option maxRecDepth 8000 in
theorem headerSuffix_ascii (hc hi hr : Bool) : ∀ c ∈ headerSuffix hc hi hr, c.toNat < 128 := by
  cases hc <;> cases hi <;> cases hr <;> decide

/-- Every byte of a header rendered for a count that is not negative is an
ASCII code, so one byte per character is what `out.data()` holds. -/
theorem headerBytes_ascii (hc hi hr : Bool) (n : Int) (h0 : 0 ≤ n) :
    ∀ b ∈ stringBytes (headerText hc hi hr n), b < 128 := by
  intro b hb
  simp only [stringBytes, List.mem_map] at hb
  obtain ⟨c, hmem, rfl⟩ := hb
  rw [headerText_toList, List.mem_append, List.mem_append] at hmem
  rcases hmem with (hmem | hmem) | hmem
  · exact headerPrefix_ascii c hmem
  · rw [putInt64_toList_nonneg 15 '0' n h0, List.mem_append] at hmem
    rcases hmem with hmem | hmem
    · rw [List.eq_of_mem_replicate hmem]
      decide
    · exact decimalDigitsAux_ascii _ _ c hmem
  · exact headerSuffix_ascii hc hi hr c hmem

/-! ## Lemmas on traces and records -/

theorem bodyBytes_append (a b : Trace) : bodyBytes (a ++ b) = bodyBytes a ++ bodyBytes b := by
  induction a with
  | nil => rfl
  | cons e rest ih => cases e <;> simp [bodyBytes, ih]

theorem headerWrites_append (a b : Trace) :
    headerWrites (a ++ b) = headerWrites a ++ headerWrites b := by
  induction a with
  | nil => rfl
  | cons e rest ih => cases e <;> simp [headerWrites, ih]

theorem forwarded_append (a b : Trace) : forwarded (a ++ b) = forwarded a ++ forwarded b := by
  induction a with
  | nil => rfl
  | cons e rest ih => cases e <;> simp [forwarded, ih]

theorem memcpyBytes_length (width v : Nat) : (memcpyBytes width v).length = width := by
  simp [memcpyBytes]

theorem memcpyBytes_one (v : Nat) : memcpyBytes 1 v = [v % 256] := by
  simp [memcpyBytes, List.range_succ]

theorem toUint8_lt (f : Binary32) : f.toUint8 < 256 := by
  unfold Binary32.toUint8
  split
  · next v _ =>
    have h1 : 0 ≤ v % 256 := Int.emod_nonneg v (by norm_num)
    have h2 : v % 256 < 256 := Int.emod_lt_of_pos v (by norm_num)
    omega
  · norm_num

theorem bodyBytes_pointEvents (hc hi hr : Bool) (batch : PointsBatch) (i : Nat) :
    bodyBytes (pointEvents hc hi hr batch i) = recordBytes hc hi hr batch i := by
  cases hc <;> cases hi <;> cases hr <;>
    simp [pointEvents, recordBytes, bodyBytes, memcpyBytes_one,
      Nat.mod_eq_of_lt (toUint8_lt _)]

theorem recordBytes_length (hc hi hr : Bool) (batch : PointsBatch) (i : Nat) :
    (recordBytes hc hi hr batch i).length = record_size hc hi hr := by
  cases hc <;> cases hi <;> cases hr <;>
    simp [recordBytes, record_size, memcpyBytes_length]

theorem headerWrites_pointEvents (hc hi hr : Bool) (batch : PointsBatch) (i : Nat) :
    headerWrites (pointEvents hc hi hr batch i) = [] := by
  cases hc <;> cases hi <;> cases hr <;> simp [pointEvents, headerWrites]

theorem forwarded_pointEvents (hc hi hr : Bool) (batch : PointsBatch) (i : Nat) :
    forwarded (pointEvents hc hi hr batch i) = [] := by
  cases hc <;> cases hi <;> cases hr <;> simp [pointEvents, forwarded]

theorem bodyBytes_flatMap_pointEvents (hc hi hr : Bool) (batch : PointsBatch)
    (indices : List Nat) :
    bodyBytes (indices.flatMap (pointEvents hc hi hr batch))
      = indices.flatMap (recordBytes hc hi hr batch) := by
  induction indices with
  | nil => rfl
  | cons i rest ih =>
    simp only [List.flatMap_cons, bodyBytes_append, bodyBytes_pointEvents, ih]

theorem headerWrites_flatMap_pointEvents (hc hi hr : Bool) (batch : PointsBatch)
    (indices : List Nat) :
    headerWrites (indices.flatMap (pointEvents hc hi hr batch)) = [] := by
  induction indices with
  | nil => rfl
  | cons i rest ih =>
    simp only [List.flatMap_cons, headerWrites_append, headerWrites_pointEvents, ih,
      List.append_nil]

theorem forwarded_flatMap_pointEvents (hc hi hr : Bool) (batch : PointsBatch)
    (indices : List Nat) :
    forwarded (indices.flatMap (pointEvents hc hi hr batch)) = [] := by
  induction indices with
  | nil => rfl
  | cons i rest ih =>
    simp only [List.flatMap_cons, forwarded_append, forwarded_pointEvents, ih,
      List.append_nil]

theorem flatMap_recordBytes_length (hc hi hr : Bool) (batch : PointsBatch)
    (indices : List Nat) :
    (indices.flatMap (recordBytes hc hi hr batch)).length
      = indices.length * record_size hc hi hr := by
  induction indices with
  | nil => simp
  | cons i rest ih =>
    simp only [List.flatMap_cons, List.length_append, recordBytes_length, ih,
      List.length_cons]
    ring

/-! ## Lemmas on `Process` -/

theorem bind_eq_ok {ε α β : Type} {x : Except ε α} {f : α → Except ε β} {b : β}
    (h : x >>= f = Except.ok b) : ∃ a, x = Except.ok a ∧ f a = Except.ok b := by
  cases x with
  | error e => simp [bind, Except.bind] at h
  | ok a => exact ⟨a, rfl, h⟩

namespace PlyCustomWritingPointsProcessor

@[simp] theorem record_nil (self : PlyCustomWritingPointsProcessor) : self.record [] = self := by
  simp [record]

@[simp] theorem record_record (self : PlyCustomWritingPointsProcessor) (a b : Trace) :
    (self.record a).record b = self.record (a ++ b) := by
  simp [record]

@[simp] theorem record_has_colors (self : PlyCustomWritingPointsProcessor) (a : Trace) :
    (self.record a).has_colors_ = self.has_colors_ := rfl

@[simp] theorem record_has_intensity (self : PlyCustomWritingPointsProcessor) (a : Trace) :
    (self.record a).has_intensity_ = self.has_intensity_ := rfl

@[simp] theorem record_has_rings (self : PlyCustomWritingPointsProcessor) (a : Trace) :
    (self.record a).has_rings_ = self.has_rings_ := rfl

@[simp] theorem record_num_points (self : PlyCustomWritingPointsProcessor) (a : Trace) :
    (self.record a).num_points_ = self.num_points_ := rfl

@[simp] theorem record_trace (self : PlyCustomWritingPointsProcessor) (a : Trace) :
    (self.record a).trace = self.trace ++ a := rfl

theorem onFile_checkWrite_ok (self s : PlyCustomWritingPointsProcessor) (bytes : List Nat)
    (h : self.onFile (fun fw t => checkWrite fw t bytes) = Except.ok s) :
    s = self.record [Event.Write bytes] := by
  simp only [onFile, checkWrite] at h
  split at h
  · next t ht =>
    split at ht
    · cases ht; cases h; rfl
    · cases ht
  · cases h

theorem onFile_coordinate_ok (self s : PlyCustomWritingPointsProcessor) (point : Vector3f)
    (h : self.onFile (WriteCustomBinaryPlyPointCoordinate point) = Except.ok s) :
    s = self.record [Event.Write (memcpyBytes 4 (point.x.bits % 2 ^ 32)
          ++ memcpyBytes 4 (point.y.bits % 2 ^ 32) ++ memcpyBytes 4 (point.z.bits % 2 ^ 32))] :=
  onFile_checkWrite_ok self s _ h

theorem onFile_time_ok (self s : PlyCustomWritingPointsProcessor) (time : Binary64)
    (h : self.onFile (WriteCustomBinaryPlyPointTime time) = Except.ok s) :
    s = self.record [Event.Write (memcpyBytes 8 (time.bits % 2 ^ 64))] :=
  onFile_checkWrite_ok self s _ h

theorem onFile_intensity_ok (self s : PlyCustomWritingPointsProcessor) (intensity : Binary32)
    (h : self.onFile (WriteCustomBinaryPlyPointIntensity intensity) = Except.ok s) :
    s = self.record [Event.Write (memcpyBytes 4 (intensity.bits % 2 ^ 32))] :=
  onFile_checkWrite_ok self s _ h

theorem onFile_ring_ok (self s : PlyCustomWritingPointsProcessor) (ring : Nat)
    (h : self.onFile (WriteCustomBinaryPlyPointRing ring) = Except.ok s) :
    s = self.record [Event.Write (memcpyBytes 2 (ring % 2 ^ 16))] :=
  onFile_checkWrite_ok self s _ h

theorem checkWrite_ok (fw : FileWriter) (t t' : Trace) (bytes : List Nat)
    (h : checkWrite fw t bytes = Except.ok t') : t' = t ++ [Event.Write bytes] := by
  simp only [checkWrite] at h
  split at h
  · cases h; rfl
  · cases h

theorem onFile_color_ok (self s : PlyCustomWritingPointsProcessor) (color : FloatColor)
    (h : self.onFile (WriteCustomBinaryPlyPointColor color) = Except.ok s) :
    s = self.record [Event.Write (memcpyBytes 1 color.c0.toUint8),
          Event.Write (memcpyBytes 1 color.c1.toUint8),
          Event.Write (memcpyBytes 1 color.c2.toUint8)] := by
  simp only [onFile] at h
  split at h
  · next t ht =>
    cases h
    unfold WriteCustomBinaryPlyPointColor at ht
    obtain ⟨t1, h1, ht⟩ := bind_eq_ok ht
    obtain ⟨t2, h2, ht⟩ := bind_eq_ok ht
    rw [checkWrite_ok _ _ _ _ h1] at h2
    rw [checkWrite_ok _ _ _ _ h2] at ht
    rw [checkWrite_ok _ _ _ _ ht]
    simp [record]
  · cases h

theorem optional_ok (flag : Bool) (self s : PlyCustomWritingPointsProcessor)
    (call : FileWriter → Trace → Except (Fatal × Trace) Trace) (events : Trace)
    (hcall : ∀ s', self.onFile call = Except.ok s' → s' = self.record events)
    (h : (if flag = true then self.onFile call else pure self) = Except.ok s) :
    s = self.record (if flag = true then events else []) := by
  cases flag with
  | true => simpa using hcall s (by simpa using h)
  | false =>
    simp only [Bool.false_eq_true, if_false] at h ⊢
    cases h
    simp

theorem processPoint_ok (self s : PlyCustomWritingPointsProcessor) (batch : PointsBatch)
    (i : Nat) (h : self.processPoint batch i = Except.ok s) :
    s = { self.record
            (pointEvents self.has_colors_ self.has_intensity_ self.has_rings_ batch i) with
          num_points_ := self.num_points_ + 1 } := by
  unfold processPoint at h
  obtain ⟨s1, h1, h⟩ := bind_eq_ok h
  obtain ⟨s2, h2, h⟩ := bind_eq_ok h
  obtain ⟨s3, h3, h⟩ := bind_eq_ok h
  obtain ⟨s4, h4, h⟩ := bind_eq_ok h
  obtain ⟨s5, h5, h⟩ := bind_eq_ok h
  have e1 := onFile_coordinate_ok _ _ _ h1
  subst e1
  have e2 := optional_ok _ _ _ _ _ (fun s' => onFile_color_ok _ s' _) h2
  subst e2
  have e3 := optional_ok _ _ _ _ _ (fun s' => onFile_intensity_ok _ s' _) h3
  subst e3
  have e4 := onFile_time_ok _ _ _ h4
  subst e4
  have e5 := optional_ok _ _ _ _ _ (fun s' => onFile_ring_ok _ s' _) h5
  subst e5
  cases h
  simp only [record_record, record_num_points, record_has_colors, record_has_intensity,
    record_has_rings, pointEvents, List.append_assoc]

theorem processPoints_ok (batch : PointsBatch) (indices : List Nat) :
    ∀ (self s : PlyCustomWritingPointsProcessor),
      self.processPoints batch indices = Except.ok s →
      s = { self.record (indices.flatMap
              (pointEvents self.has_colors_ self.has_intensity_ self.has_rings_ batch)) with
            num_points_ := self.num_points_ + indices.length } := by
  induction indices with
  | nil =>
    intro self s h
    cases h
    simp
  | cons i rest ih =>
    intro self s h
    unfold processPoints at h
    obtain ⟨s1, h1, h⟩ := bind_eq_ok h
    have e1 := processPoint_ok _ _ _ _ h1
    subst e1
    rw [ih _ _ h]
    simp [record, add_assoc, add_comm]
    omega

theorem checkEq_ok (self s : PlyCustomWritingPointsProcessor) (a b : Nat)
    (message frame_id : String) (h : self.checkEq a b message frame_id = Except.ok s) :
    s = self ∧ a = b := by
  unfold checkEq at h
  split at h
  · next hab => cases h; exact ⟨rfl, hab⟩
  · cases h

theorem guarded_checkEq_ok (flag : Bool) (self s : PlyCustomWritingPointsProcessor) (a b : Nat)
    (message frame_id : String)
    (h : (if flag = true then self.checkEq a b message frame_id else pure self) = Except.ok s) :
    s = self ∧ (flag = true → a = b) := by
  cases flag with
  | true =>
    simp only [if_true] at h
    exact ⟨(checkEq_ok _ _ _ _ _ _ h).1, fun _ => (checkEq_ok _ _ _ _ _ _ h).2⟩
  | false =>
    simp only [Bool.false_eq_true, if_false] at h
    cases h
    exact ⟨rfl, fun hf => absurd hf (by decide)⟩

theorem onFile_header_ok (self s : PlyCustomWritingPointsProcessor) (hc hi hr : Bool) (n : Int)
    (h : self.onFile (WriteCustomBinaryPlyHeader hc hi hr n) = Except.ok s) :
    s = self.record [Event.WriteHeader (stringBytes (headerText hc hi hr n))] := by
  simp only [onFile, WriteCustomBinaryPlyHeader, checkWriteHeader] at h
  split at h
  · next t ht =>
    split at ht
    · cases ht; cases h; rfl
    · cases ht
  · cases h

theorem onFile_close_ok (self s : PlyCustomWritingPointsProcessor)
    (h : self.onFile checkClose = Except.ok s) : s = self.record [Event.Close] := by
  simp only [onFile, checkClose] at h
  split at h
  · next t ht =>
    split at ht
    · cases ht; cases h; rfl
    · cases ht
  · cases h

/-- What a successful `Process` of an empty batch leaves behind. -/
theorem Process_empty (self : PlyCustomWritingPointsProcessor) (batch : PointsBatch)
    (hb : batch.points = []) : self.Process batch = Except.ok (self.record [Event.NextProcess batch]) := by
  simp [Process, hb, forward, record, pure, Except.pure]

/-- What a successful `Process` of a non-empty batch leaves behind: the schema
decision, the size checks passed, the counter advanced by the number of
points, and the calls made, in order. -/
theorem Process_ok (self s : PlyCustomWritingPointsProcessor) (batch : PointsBatch)
    (hb : batch.points ≠ []) (h : self.Process batch = Except.ok s) :
    s = { (self.lockSchema batch).record
            (self.placeholderEvents batch
              ++ (List.range batch.points.length).flatMap
                  (pointEvents (self.lockSchema batch).has_colors_
                    (self.lockSchema batch).has_intensity_
                    (self.lockSchema batch).has_rings_ batch)
              ++ [Event.NextProcess batch]) with
          num_points_ := self.num_points_ + batch.points.length }
      ∧ ((self.lockSchema batch).has_colors_ = true →
          batch.points.length = batch.colors.length)
      ∧ ((self.lockSchema batch).has_intensity_ = true →
          batch.points.length = batch.intensities.length)
      ∧ ((self.lockSchema batch).has_rings_ = true →
          batch.points.length = batch.rings.length) := by
  unfold Process at h
  rw [if_neg (by simpa using hb)] at h
  obtain ⟨s1, h1, h⟩ := bind_eq_ok h
  obtain ⟨s2, h2, h⟩ := bind_eq_ok h
  obtain ⟨s3, h3, h⟩ := bind_eq_ok h
  obtain ⟨s4, h4, h⟩ := bind_eq_ok h
  obtain ⟨s5, h5, h⟩ := bind_eq_ok h
  have e1 : s1 = (self.lockSchema batch).record (self.placeholderEvents batch) := by
    unfold lockSchema placeholderEvents
    split at h1
    · next h0 =>
      rw [if_pos h0, if_pos h0]
      exact onFile_header_ok _ _ _ _ _ _ h1
    · next h0 =>
      rw [if_neg h0, if_neg h0]
      cases h1
      simp
  obtain ⟨e2, c2⟩ := guarded_checkEq_ok _ _ _ _ _ _ _ h2
  subst e2
  obtain ⟨e3, c3⟩ := guarded_checkEq_ok _ _ _ _ _ _ _ h3
  subst e3
  obtain ⟨e4, c4⟩ := guarded_checkEq_ok _ _ _ _ _ _ _ h4
  subst e4
  have e5 := processPoints_ok _ _ _ _ h5
  subst e5
  cases h
  subst e1
  refine ⟨?_, by simpa using c2, by simpa using c3, by simpa using c4⟩
  simp [forward, record, lockSchema]
  split <;> simp

end PlyCustomWritingPointsProcessor

namespace PlyCustomWritingPointsProcessor

theorem create_consistent (file_writer : FileWriter) (next : PointsProcessor) :
    Consistent (create file_writer next) := by
  simp [Consistent, create, bodyBytes, headerWrites]

theorem Process_num_points (self s : PlyCustomWritingPointsProcessor) (batch : PointsBatch)
    (h : self.Process batch = Except.ok s) :
    s.num_points_ = self.num_points_ + batch.points.length := by
  by_cases hb : batch.points = []
  · rw [Process_empty self batch hb] at h
    cases h
    simp [hb]
  · rw [(Process_ok self s batch hb h).1]

theorem Process_bodyBytes (self s : PlyCustomWritingPointsProcessor) (batch : PointsBatch)
    (h : self.Process batch = Except.ok s) :
    bodyBytes s.trace
      = bodyBytes self.trace ++ (List.range batch.points.length).flatMap
          (recordBytes s.has_colors_ s.has_intensity_ s.has_rings_ batch) := by
  by_cases hb : batch.points = []
  · rw [Process_empty self batch hb] at h
    cases h
    simp [hb, bodyBytes_append, bodyBytes]
  · have hs := (Process_ok self s batch hb h).1
    subst hs
    have hp : bodyBytes (self.placeholderEvents batch) = [] := by
      unfold placeholderEvents
      split <;> rfl
    have ht : (self.lockSchema batch).trace = self.trace := by
      unfold lockSchema
      split <;> rfl
    show bodyBytes ((self.lockSchema batch).trace ++ _) = _
    rw [ht, bodyBytes_append, bodyBytes_append, bodyBytes_append, hp,
      bodyBytes_flatMap_pointEvents]
    simp [bodyBytes, record]

theorem Process_headerWrites (self s : PlyCustomWritingPointsProcessor) (batch : PointsBatch)
    (h : self.Process batch = Except.ok s) :
    headerWrites s.trace
      = headerWrites self.trace
        ++ (if batch.points ≠ [] ∧ self.num_points_ = 0 then
              [stringBytes (headerText s.has_colors_ s.has_intensity_ s.has_rings_ 0)]
            else []) := by
  by_cases hb : batch.points = []
  · rw [Process_empty self batch hb] at h
    cases h
    simp [hb, headerWrites_append, headerWrites]
  · have hs := (Process_ok self s batch hb h).1
    subst hs
    have ht : (self.lockSchema batch).trace = self.trace := by
      unfold lockSchema
      split <;> rfl
    show headerWrites ((self.lockSchema batch).trace ++ _) = _
    rw [ht, headerWrites_append, headerWrites_append, headerWrites_append,
      headerWrites_flatMap_pointEvents]
    by_cases h0 : self.num_points_ = 0
    · simp [hb, h0, placeholderEvents, lockSchema, headerWrites, record]
    · simp [hb, h0, placeholderEvents, headerWrites]

theorem Process_flags (self s : PlyCustomWritingPointsProcessor) (batch : PointsBatch)
    (h : self.Process batch = Except.ok s) :
    (s.has_colors_, s.has_intensity_, s.has_rings_)
      = if batch.points ≠ [] ∧ self.num_points_ = 0 then
          (!batch.colors.isEmpty, !batch.intensities.isEmpty, !batch.rings.isEmpty)
        else (self.has_colors_, self.has_intensity_, self.has_rings_) := by
  by_cases hb : batch.points = []
  · rw [Process_empty self batch hb] at h
    cases h
    simp [hb]
  · have hs := (Process_ok self s batch hb h).1
    subst hs
    by_cases h0 : self.num_points_ = 0
    · simp [hb, h0, lockSchema, record]
    · simp [hb, h0, lockSchema, record]

theorem Process_consistent (self s : PlyCustomWritingPointsProcessor) (batch : PointsBatch)
    (hinv : Consistent self) (h : self.Process batch = Except.ok s) : Consistent s := by
  obtain ⟨hnn, hbody, hhdr⟩ := hinv
  have hn := Process_num_points self s batch h
  have hB := Process_bodyBytes self s batch h
  have hH := Process_headerWrites self s batch h
  have hF := Process_flags self s batch h
  refine ⟨by omega, ?_, ?_⟩
  · rw [hB, List.length_append, flatMap_recordBytes_length, List.length_range, hbody, hn]
    have hnat : (self.num_points_ + batch.points.length).toNat
        = self.num_points_.toNat + batch.points.length := by omega
    rw [hnat]
    by_cases h0 : self.num_points_ = 0
    · simp [h0]
    · simp only [h0, and_false, if_false, Prod.mk.injEq] at hF
      rw [hF.1, hF.2.1, hF.2.2]
      ring
  · rw [hH, hhdr, hn]
    by_cases hb : batch.points = []
    · simp only [hb, ne_eq, not_true_eq_false, false_and, if_false, Prod.mk.injEq] at hF
      simp [hb, hF.1, hF.2.1, hF.2.2]
    · have hpos : 0 < batch.points.length := List.length_pos.mpr hb
      by_cases h0 : self.num_points_ = 0
      · have hne : (batch.points.length : Int) ≠ 0 := by omega
        simp [hb, h0, hne]
      · have hne : self.num_points_ + (batch.points.length : Int) ≠ 0 := by omega
        simp only [h0, and_false, if_false, Prod.mk.injEq] at hF
        simp [h0, hne, hF.1, hF.2.1, hF.2.2]

theorem processAll_consistent (batches : List PointsBatch) :
    ∀ (self s : PlyCustomWritingPointsProcessor), Consistent self →
      self.processAll batches = Except.ok s →
      Consistent s ∧ s.num_points_ = self.num_points_ + totalPoints batches := by
  induction batches with
  | nil =>
    intro self s hinv h
    cases h
    exact ⟨hinv, by simp [totalPoints]⟩
  | cons batch rest ih =>
    intro self s hinv h
    unfold processAll at h
    obtain ⟨s1, h1, h⟩ := bind_eq_ok h
    obtain ⟨hc, hn⟩ := ih s1 s (Process_consistent self s1 batch hinv h1) h
    refine ⟨hc, ?_⟩
    rw [hn, Process_num_points self s1 batch h1]
    simp [totalPoints]
    ring

/-- C4: after a fresh stage has processed a sequence of batches successfully,
the number of bytes appended to the file body is N × record_size(schema),
where N is the total number of points of the batches and the schema is the
one the stage holds. -/
theorem body_length_eq_points_times_record_size (file_writer : FileWriter)
    (next : PointsProcessor) (batches : List PointsBatch)
    (s : PlyCustomWritingPointsProcessor)
    (h : (create file_writer next).processAll batches = Except.ok s) :
    (bodyBytes s.trace).length
      = totalPoints batches * record_size s.has_colors_ s.has_intensity_ s.has_rings_ := by
  obtain ⟨⟨_, hbody, _⟩, hn⟩ :=
    processAll_consistent batches _ s (create_consistent file_writer next) h
  rw [hbody, hn]
  simp [create]

theorem body_length_eq_points_times_record_size_witness :
    (create acceptingFileWriter finishingNext).processAll [colorRingBatch, colorRingBatch]
        = Except.ok (finalState ((create acceptingFileWriter finishingNext).processAll
            [colorRingBatch, colorRingBatch]))
      ∧ (bodyBytes (finalState ((create acceptingFileWriter finishingNext).processAll
            [colorRingBatch, colorRingBatch])).trace).length = 4 * 25 :=
  ⟨rfl, (body_length_eq_points_times_record_size acceptingFileWriter finishingNext
    [colorRingBatch, colorRingBatch] _ rfl).trans (by decide)⟩

end PlyCustomWritingPointsProcessor

namespace PlyCustomWritingPointsProcessor

/-- C5: when `Process` succeeds on a non-empty batch, every attribute the
schema carries has one entry per point, and the bytes appended to the body
are, point after point in index order and with nothing in between, the record
of that point: x, y, z (4 bytes each); red, green, blue (1 byte each) if
has_color; intensity (4 bytes) if has_intensity; the batch timestamp (8 bytes,
the same for every point); the ring id (2 bytes, little-endian) if has_ring.
In particular the batch with the single point (1, 2, 3), no colour, intensity
or ring and timestamp 5.0 yields exactly the 20 bytes of x, y, z, time. -/
theorem process_appends_records_in_layout_order (self s : PlyCustomWritingPointsProcessor)
    (batch : PointsBatch) (hb : batch.points ≠ []) (h : self.Process batch = Except.ok s) :
    bodyBytes s.trace
        = bodyBytes self.trace ++ (List.range batch.points.length).flatMap
            (recordBytes s.has_colors_ s.has_intensity_ s.has_rings_ batch)
      ∧ (∀ i, (recordBytes s.has_colors_ s.has_intensity_ s.has_rings_ batch i).length
          = record_size s.has_colors_ s.has_intensity_ s.has_rings_)
      ∧ (s.has_colors_ = true → batch.colors.length = batch.points.length)
      ∧ (s.has_intensity_ = true → batch.intensities.length = batch.points.length)
      ∧ (s.has_rings_ = true → batch.rings.length = batch.points.length)
      ∧ bodyBytes (finalState
            ((create acceptingFileWriter finishingNext).Process plainBatch)).trace
          = [0, 0, 128, 63] ++ [0, 0, 0, 64] ++ [0, 0, 64, 64] ++ [0, 0, 0, 0, 0, 0, 20, 64] := by
  obtain ⟨hs, hc, hi, hr⟩ := Process_ok self s batch hb h
  refine ⟨Process_bodyBytes self s batch h, fun i => recordBytes_length _ _ _ batch i,
    ?_, ?_, ?_, by decide⟩
  · intro hf
    rw [hs] at hf
    exact (hc hf).symm
  · intro hf
    rw [hs] at hf
    exact (hi hf).symm
  · intro hf
    rw [hs] at hf
    exact (hr hf).symm

theorem process_appends_records_in_layout_order_witness :
    colorRingBatch.points ≠ []
      ∧ (create acceptingFileWriter finishingNext).Process colorRingBatch
          = Except.ok
              (finalState ((create acceptingFileWriter finishingNext).Process colorRingBatch))
      ∧ bodyBytes (finalState
            ((create acceptingFileWriter finishingNext).Process colorRingBatch)).trace
          = [0, 0, 128, 63, 0, 0, 0, 64, 0, 0, 64, 64, 255, 128, 0,
              0, 0, 0, 0, 0, 0, 20, 64, 7, 0,
             0, 0, 128, 63, 0, 0, 0, 64, 0, 0, 64, 64, 1, 2, 3,
              0, 0, 0, 0, 0, 0, 20, 64, 2, 1] :=
  ⟨by decide, rfl,
    (process_appends_records_in_layout_order (create acceptingFileWriter finishingNext) _
      colorRingBatch (by decide) rfl).1.trans (by decide)⟩

end PlyCustomWritingPointsProcessor

/-! ## Header declarations against the record layout -/

theorem splitWords_append_space (a b : List Char) (h : ' ' ∉ a) :
    splitWords (a ++ ' ' :: b) = a :: splitWords b := by
  induction a with
  | nil => simp [splitWords]
  | cons c cs ih =>
    have hc : c ≠ ' ' := fun e => h (by simp [e])
    have hcs : ' ' ∉ cs := fun e => h (by simp [e])
    simp [splitWords, hc, ih hcs]

theorem parseProperty_none_of_head (line word : List Char) (rest : List (List Char))
    (hsplit : splitWords line = word :: rest) (hword : word ≠ "property".toList) :
    parseProperty line = none := by
  unfold parseProperty
  rw [hsplit]
  split
  · next keyword type name heq =>
    have : word = keyword := by
      injection heq
    subst this
    rw [if_neg hword]
  · rfl

theorem parseProperty_count_line (field : List Char) :
    parseProperty ("element vertex ".toList ++ field) = none := by
  have h : "element vertex ".toList ++ field
      = "element".toList ++ ' ' :: ("vertex".toList ++ ' ' :: field) := by
    simp [String.toList]
  rw [h]
  exact parseProperty_none_of_head _ "element".toList _
    (splitWords_append_space _ _ (by decide)) (by decide)

theorem propertyLines_headerProperties (hc hi hr : Bool) :
    (splitLines (headerProperties hc hi hr)).filterMap parseProperty
      = (recordLayout hc hi hr).map (fun f => (f.plyType.toList, f.name.toList)) := by
  cases hc <;> cases hi <;> cases hr <;> decide

theorem propertyLines_headerText (hc hi hr : Bool) (n : Int) (h0 : 0 ≤ n) :
    propertyLines (headerText hc hi hr n).toList
      = (recordLayout hc hi hr).map (fun f => (f.plyType.toList, f.name.toList)) := by
  unfold propertyLines
  rw [headerLines hc hi hr n h0]
  have h1 : parseProperty "ply".toList = none := by decide
  have h2 : parseProperty "format binary_little_endian 1.0".toList = none := by decide
  have h3 : parseProperty
      "comment Point cloud hypnotized and smoothly lured from the basket by the almighty snake charmer: Kamikaze Viper".toList
        = none := by decide
  rw [List.filterMap_cons_none h1, List.filterMap_cons_none h2, List.filterMap_cons_none h3,
    List.filterMap_cons_none (parseProperty_count_line _)]
  exact propertyLines_headerProperties hc hi hr

theorem recordBytes_eq_layout (hc hi hr : Bool) (batch : PointsBatch) (i : Nat) :
    recordBytes hc hi hr batch i
      = (recordLayout hc hi hr).flatMap (fun f => f.bytes batch i) := by
  cases hc <;> cases hi <;> cases hr <;>
    simp [recordBytes, recordLayout, Field.bytes, memcpyBytes_one,
      Nat.mod_eq_of_lt (toUint8_lt _)]

theorem field_width (field : Field) (batch : PointsBatch) (i : Nat) :
    plyTypeWidth field.plyType.toList = some (field.bytes batch i).length := by
  cases field <;> simp only [Field.bytes, memcpyBytes_length] <;> decide

theorem layout_width_sum (hc hi hr : Bool) (batch : PointsBatch) (i : Nat) :
    ((recordLayout hc hi hr).map (fun f => (f.bytes batch i).length)).sum
      = record_size hc hi hr := by
  cases hc <;> cases hi <;> cases hr <;>
    simp [recordLayout, Field.bytes, memcpyBytes_length, record_size]

namespace PlyCustomWritingPointsProcessor

/-- C6: for every schema (the three flags of the stage), the property lines
of the rendered header are, in order, the declarations (type, name) of the
fields of the record layout; the bytes the loop body of `Process` appends for
one point are the bytes of exactly these fields in the same order; each
field occupies the width of its declared type; and the widths sum to
record_size(schema). -/
theorem header_properties_match_record_fields (self s : PlyCustomWritingPointsProcessor)
    (batch : PointsBatch) (i : Nat) (n : Int) (h0 : 0 ≤ n)
    (h : self.processPoint batch i = Except.ok s) :
    propertyLines (headerText self.has_colors_ self.has_intensity_ self.has_rings_ n).toList
        = (recordLayout self.has_colors_ self.has_intensity_ self.has_rings_).map
            (fun f => (f.plyType.toList, f.name.toList))
      ∧ bodyBytes s.trace
        = bodyBytes self.trace
          ++ (recordLayout self.has_colors_ self.has_intensity_ self.has_rings_).flatMap
              (fun f => f.bytes batch i)
      ∧ (∀ f ∈ recordLayout self.has_colors_ self.has_intensity_ self.has_rings_,
          plyTypeWidth f.plyType.toList = some (f.bytes batch i).length)
      ∧ ((recordLayout self.has_colors_ self.has_intensity_ self.has_rings_).map
            (fun f => (f.bytes batch i).length)).sum
          = record_size self.has_colors_ self.has_intensity_ self.has_rings_ := by
  refine ⟨propertyLines_headerText _ _ _ n h0, ?_, fun f _ => field_width f batch i,
    layout_width_sum _ _ _ batch i⟩
  rw [processPoint_ok self s batch i h]
  show bodyBytes (self.trace ++ _) = _
  rw [bodyBytes_append, bodyBytes_pointEvents, recordBytes_eq_layout]

theorem header_properties_match_record_fields_witness :
    (0 : Int) ≤ 2
      ∧ (create acceptingFileWriter finishingNext).processPoint colorRingBatch 1
          = Except.ok (finalState
              ((create acceptingFileWriter finishingNext).processPoint colorRingBatch 1))
      ∧ propertyLines (headerText false false false 2).toList
          = [("float".toList, "x".toList), ("float".toList, "y".toList),
              ("float".toList, "z".toList), ("double".toList, "time".toList)]
      ∧ bodyBytes (finalState
            ((create acceptingFileWriter finishingNext).processPoint colorRingBatch 1)).trace
          = [0, 0, 128, 63, 0, 0, 0, 64, 0, 0, 64, 64, 0, 0, 0, 0, 0, 0, 20, 64] :=
  ⟨by decide, rfl,
    (header_properties_match_record_fields (create acceptingFileWriter finishingNext) _
      colorRingBatch 1 2 (by decide) rfl).1,
    (header_properties_match_record_fields (create acceptingFileWriter finishingNext) _
      colorRingBatch 1 2 (by decide) rfl).2.1.trans (by decide)⟩

end PlyCustomWritingPointsProcessor

/-! ## Lemmas on `Flush` and whole runs -/

theorem putInt64_value (n : Int) (h0 : 0 ≤ n) :
    decimalValue (putInt64 15 '0' n).toList = n.toNat := by
  rw [putInt64_toList_nonneg 15 '0' n h0, decimalValue_replicate_zero]
  unfold decimalDigits
  exact decimalDigitsAux_value _ _ (Nat.lt_succ_self _)

theorem declaredCount_headerText (hc hi hr : Bool) (n : Int) (h0 : 0 ≤ n) :
    declaredCount (headerText hc hi hr n).toList = some n.toNat := by
  unfold declaredCount
  rw [headerLines hc hi hr n h0]
  have hp : "element vertex ".toList.isPrefixOf
      ("element vertex ".toList ++ (putInt64 15 '0' n).toList) = true := by
    rw [List.isPrefixOf_iff_prefix]
    exact List.prefix_append _ _
  have hd : ("element vertex ".toList ++ (putInt64 15 '0' n).toList).drop
      "element vertex ".length = (putInt64 15 '0' n).toList :=
    List.drop_left' rfl
  simp only [List.findSome?, hp, hd, if_true, putInt64_value n h0]
  rfl

namespace PlyCustomWritingPointsProcessor

theorem Flush_ok (self s : PlyCustomWritingPointsProcessor) (r : FlushResult)
    (h : self.Flush = Except.ok (r, s)) :
    r = FlushResult.kFinished
      ∧ s = self.record
          [Event.WriteHeader (stringBytes
              (headerText self.has_colors_ self.has_intensity_ self.has_rings_ self.num_points_)),
            Event.Close, Event.NextFlush] := by
  unfold Flush at h
  obtain ⟨s1, h1, h⟩ := bind_eq_ok h
  obtain ⟨s2, h2, h⟩ := bind_eq_ok h
  have e1 := onFile_header_ok _ _ _ _ _ _ h1
  subst e1
  have e2 := onFile_close_ok _ _ h2
  subst e2
  simp only at h
  split at h
  · cases h
    exact ⟨rfl, by simp [record]⟩
  · cases h

theorem Flush_headerWrites (self : PlyCustomWritingPointsProcessor) :
    headerWrites (flushState self.Flush).trace
      = headerWrites self.trace
        ++ [stringBytes
            (headerText self.has_colors_ self.has_intensity_ self.has_rings_ self.num_points_)] := by
  unfold Flush
  simp only [onFile, WriteCustomBinaryPlyHeader, checkWriteHeader, checkClose, bind, Except.bind,
    pure, Except.pure, throw, throwThe, MonadExceptOf.throw]
  cases hw : self.file_.WriteHeader self.trace (stringBytes
      (headerText self.has_colors_ self.has_intensity_ self.has_rings_ self.num_points_))
  · simp [flushState, headerWrites_append, headerWrites]
  · cases hc : self.file_.Close (self.trace ++ [Event.WriteHeader (stringBytes
        (headerText self.has_colors_ self.has_intensity_ self.has_rings_ self.num_points_))])
    · simp [flushState, headerWrites_append, headerWrites, hc]
    · simp only [if_true, hc]
      split <;> simp [flushState, headerWrites_append, headerWrites]

/-- C7: in a run of a fresh stage (successful `Process` calls, then `Flush`,
whatever `Flush` ends in) with at most 10^15 − 1 points in total, the header
writes issued to the file writer are the placeholder (count 0, written when
the first non-empty batch arrived) and the final header (same schema, true
count), and all of them hand over byte sequences of one and the same length. -/
theorem header_writes_same_length (file_writer : FileWriter) (next : PointsProcessor)
    (batches : List PointsBatch) (s : PlyCustomWritingPointsProcessor)
    (hrun : (create file_writer next).processAll batches = Except.ok s)
    (hcount : (totalPoints batches : Int) ≤ 10 ^ 15 - 1) :
    headerWrites (flushState s.Flush).trace
        = (if totalPoints batches = 0 then []
            else [stringBytes (headerText s.has_colors_ s.has_intensity_ s.has_rings_ 0)])
          ++ [stringBytes (headerText s.has_colors_ s.has_intensity_ s.has_rings_
                (totalPoints batches))]
      ∧ ∀ a ∈ headerWrites (flushState s.Flush).trace,
          ∀ b ∈ headerWrites (flushState s.Flush).trace, a.length = b.length := by
  obtain ⟨⟨_, _, hhdr⟩, hn⟩ :=
    processAll_consistent batches _ s (create_consistent file_writer next) hrun
  have hn' : s.num_points_ = (totalPoints batches : Int) := by simpa [create] using hn
  have hlist : headerWrites (flushState s.Flush).trace
      = (if totalPoints batches = 0 then []
          else [stringBytes (headerText s.has_colors_ s.has_intensity_ s.has_rings_ 0)])
        ++ [stringBytes (headerText s.has_colors_ s.has_intensity_ s.has_rings_
              (totalPoints batches))] := by
    rw [Flush_headerWrites, hhdr, hn']
    simp
  refine ⟨hlist, ?_⟩
  have hlen : ∀ a ∈ headerWrites (flushState s.Flush).trace,
      a.length = (stringBytes (headerText s.has_colors_ s.has_intensity_ s.has_rings_ 0)).length := by
    intro a ha
    rw [hlist] at ha
    rcases List.mem_append.mp ha with ha | ha
    · split at ha
      · cases ha
      · rw [List.mem_singleton.mp ha]
    · rw [List.mem_singleton.mp ha, headerBytes_length_small _ _ _ _ (by omega) hcount,
        headerBytes_length_small _ _ _ 0 (le_refl 0) (by norm_num)]
  intro a ha b hb
  rw [hlen a ha, hlen b hb]

set_option maxRecDepth 8000 in
theorem header_writes_same_length_witness :
    (create acceptingFileWriter finishingNext).processAll [plainBatch, colorBatch]
        = Except.ok (finalState
            ((create acceptingFileWriter finishingNext).processAll [plainBatch, colorBatch]))
      ∧ ((totalPoints [plainBatch, colorBatch] : Nat) : Int) ≤ 10 ^ 15 - 1
      ∧ (headerWrites (flushState (finalState
            ((create acceptingFileWriter finishingNext).processAll
              [plainBatch, colorBatch])).Flush).trace).map List.length = [262, 262] :=
  ⟨rfl, by decide,
    (congrArg (List.map List.length)
      (header_writes_same_length acceptingFileWriter finishingNext [plainBatch, colorBatch] _
        rfl (by decide)).1).trans (by decide)⟩

end PlyCustomWritingPointsProcessor

namespace PlyCustomWritingPointsProcessor

theorem record_size_pos (hc hi hr : Bool) : 0 < record_size hc hi hr := by
  unfold record_size
  omega

/-- C8: in a run of a fresh stage (successful `Process` calls, then a
successful `Flush`), the counter starts at 0 and ends at the total number of
points of the batches; the last header written is the one rendered for that
count, and the count declared in the bytes handed to the file writer (all of
them ASCII codes) reads back as that number; the body holds that many records
of record_size(schema) bytes; and every successful `Process` adds exactly the
batch's point count to the counter, which never decreases. -/
theorem final_count_eq_points_eq_records (file_writer : FileWriter) (next : PointsProcessor)
    (batches : List PointsBatch) (s s' : PlyCustomWritingPointsProcessor) (r : FlushResult)
    (hrun : (create file_writer next).processAll batches = Except.ok s)
    (hflush : s.Flush = Except.ok (r, s')) :
    (create file_writer next).num_points_ = 0
      ∧ s.num_points_ = (totalPoints batches : Int)
      ∧ headerWrites s'.trace
          = headerWrites s.trace
            ++ [stringBytes (headerText s.has_colors_ s.has_intensity_ s.has_rings_
                  (totalPoints batches))]
      ∧ declaredCount (headerText s.has_colors_ s.has_intensity_ s.has_rings_
            (totalPoints batches)).toList = some (totalPoints batches)
      ∧ (bodyBytes s'.trace).length
          = totalPoints batches * record_size s.has_colors_ s.has_intensity_ s.has_rings_
      ∧ (bodyBytes s'.trace).length / record_size s.has_colors_ s.has_intensity_ s.has_rings_
          = totalPoints batches
      ∧ (∃ earlier final, headerWrites s'.trace = earlier ++ [final]
          ∧ (∀ b ∈ final, b < 128)
          ∧ bytesText final
              = (headerText s.has_colors_ s.has_intensity_ s.has_rings_
                  (totalPoints batches)).toList
          ∧ declaredCount (bytesText final) = some (totalPoints batches))
      ∧ ∀ (self t : PlyCustomWritingPointsProcessor) (batch : PointsBatch),
          self.Process batch = Except.ok t →
            t.num_points_ = self.num_points_ + batch.points.length
              ∧ self.num_points_ ≤ t.num_points_ := by
  obtain ⟨⟨_, hbody, _⟩, hn⟩ :=
    processAll_consistent batches _ s (create_consistent file_writer next) hrun
  have hn' : s.num_points_ = (totalPoints batches : Int) := by simpa [create] using hn
  obtain ⟨_, hs'⟩ := Flush_ok s s' r hflush
  have hbody' : (bodyBytes s'.trace).length
      = totalPoints batches * record_size s.has_colors_ s.has_intensity_ s.has_rings_ := by
    rw [hs']
    show (bodyBytes (s.trace ++ _)).length = _
    rw [bodyBytes_append, List.length_append, hbody, hn']
    simp [bodyBytes]
  have hcount : declaredCount (headerText s.has_colors_ s.has_intensity_ s.has_rings_
      (totalPoints batches)).toList = some (totalPoints batches) := by
    have := declaredCount_headerText s.has_colors_ s.has_intensity_ s.has_rings_
      (totalPoints batches) (by omega)
    simpa using this
  have hhdr : headerWrites s'.trace
      = headerWrites s.trace
        ++ [stringBytes (headerText s.has_colors_ s.has_intensity_ s.has_rings_
              (totalPoints batches))] := by
    rw [hs', ← hn']
    show headerWrites (s.trace ++ _) = _
    rw [headerWrites_append]
    rfl
  refine ⟨rfl, hn', hhdr, hcount, hbody', ?_, ?_, ?_⟩
  · rw [hbody']
    exact Nat.mul_div_cancel _ (record_size_pos _ _ _)
  · refine ⟨_, _, hhdr, headerBytes_ascii _ _ _ _ (by omega), bytesText_stringBytes _, ?_⟩
    rw [bytesText_stringBytes]
    exact hcount
  · intro self t batch h
    have := Process_num_points self t batch h
    exact ⟨this, by omega⟩

set_option maxRecDepth 20000 in
theorem final_count_eq_points_eq_records_witness :
    (create acceptingFileWriter finishingNext).processAll [colorRingBatch, colorRingBatch]
        = Except.ok (finalState ((create acceptingFileWriter finishingNext).processAll
            [colorRingBatch, colorRingBatch]))
      ∧ (finalState ((create acceptingFileWriter finishingNext).processAll
            [colorRingBatch, colorRingBatch])).Flush
          = Except.ok (FlushResult.kFinished,
              flushState (finalState ((create acceptingFileWriter finishingNext).processAll
                [colorRingBatch, colorRingBatch])).Flush)
      ∧ (finalState ((create acceptingFileWriter finishingNext).processAll
            [colorRingBatch, colorRingBatch])).num_points_ = 4
      ∧ (bodyBytes (flushState (finalState
            ((create acceptingFileWriter finishingNext).processAll
              [colorRingBatch, colorRingBatch])).Flush).trace).length / 25 = 4
      ∧ (headerWrites (flushState (finalState
            ((create acceptingFileWriter finishingNext).processAll
              [colorRingBatch, colorRingBatch])).Flush).trace).map
            (fun bytes => (splitLines (bytesText bytes))[3]?)
          = [some "element vertex 000000000000000".toList,
              some "element vertex 000000000000004".toList]
      ∧ (headerWrites (flushState (finalState
            ((create acceptingFileWriter finishingNext).processAll
              [colorRingBatch, colorRingBatch])).Flush).trace).map
            (fun bytes => declaredCount (bytesText bytes)) = [some 0, some 4] :=
  ⟨rfl, rfl,
    (final_count_eq_points_eq_records acceptingFileWriter finishingNext
      [colorRingBatch, colorRingBatch] _ _ _ rfl rfl).2.1.trans (by decide),
    (final_count_eq_points_eq_records acceptingFileWriter finishingNext
      [colorRingBatch, colorRingBatch] _ _ _ rfl rfl).2.2.2.2.2.1.trans (by decide),
    by decide, by decide⟩

end PlyCustomWritingPointsProcessor

namespace PlyCustomWritingPointsProcessor

theorem guarded_checkEq_eq (flag : Bool) (self : PlyCustomWritingPointsProcessor) (a b : Nat)
    (message frame_id : String) :
    (if flag = true then self.checkEq a b message frame_id else pure self)
      = if flag = true ∧ b ≠ a then Except.error (Fatal.CheckEq (message ++ frame_id), self)
        else Except.ok self := by
  unfold checkEq
  cases flag with
  | false => simp [pure, Except.pure]
  | true =>
    by_cases hab : a = b
    · simp [hab]
    · have hba : ¬ b = a := fun e => hab e.symm
      simp [hab, hba]

theorem Process_locked_mismatch (self : PlyCustomWritingPointsProcessor) (batch : PointsBatch)
    (hlocked : self.num_points_ ≠ 0) (hb : batch.points ≠ [])
    (hbad : (self.has_colors_ = true ∧ batch.colors.length ≠ batch.points.length)
      ∨ (self.has_intensity_ = true ∧ batch.intensities.length ≠ batch.points.length)
      ∨ (self.has_rings_ = true ∧ batch.rings.length ≠ batch.points.length)) :
    ∃ message, self.Process batch
      = Except.error (Fatal.CheckEq (message ++ batch.frame_id), self) := by
  have hb' : batch.points.isEmpty = false := by simpa using hb
  unfold Process
  simp only [hb', Bool.false_eq_true, if_false, if_neg hlocked, guarded_checkEq_eq, pure_bind]
  by_cases c1 : self.has_colors_ = true ∧ batch.colors.length ≠ batch.points.length
  · rw [if_pos c1]
    exact ⟨_, rfl⟩
  · rw [if_neg c1]
    simp only [bind, Except.bind]
    by_cases c2 : self.has_intensity_ = true ∧ batch.intensities.length ≠ batch.points.length
    · rw [if_pos c2]
      exact ⟨_, rfl⟩
    · rw [if_neg c2]
      simp only
      by_cases c3 : self.has_rings_ = true ∧ batch.rings.length ≠ batch.points.length
      · rw [if_pos c3]
        exact ⟨_, rfl⟩
      · rcases hbad with h | h | h
        · exact absurd h c1
        · exact absurd h c2
        · exact absurd h c3

/-- C9: once the schema is locked (the counter has left 0), `Process` aborts
on every non-empty batch in which an attribute the schema carries does not
have one entry per point (colours, intensities or rings), with a `CHECK_EQ`
failure naming the frame id and before anything is written; in particular,
after a first non-empty batch with colours, `Process` aborts on a second
non-empty batch without colours. -/
theorem locked_schema_mismatch_is_fatal (self : PlyCustomWritingPointsProcessor)
    (batch : PointsBatch) (hlocked : self.num_points_ ≠ 0) (hb : batch.points ≠ [])
    (hbad : (self.has_colors_ = true ∧ batch.colors.length ≠ batch.points.length)
      ∨ (self.has_intensity_ = true ∧ batch.intensities.length ≠ batch.points.length)
      ∨ (self.has_rings_ = true ∧ batch.rings.length ≠ batch.points.length)) :
    (∃ message, self.Process batch
        = Except.error (Fatal.CheckEq (message ++ batch.frame_id), self))
      ∧ ∀ (file_writer : FileWriter) (next : PointsProcessor) (first second : PointsBatch)
          (s : PlyCustomWritingPointsProcessor),
          first.points ≠ [] → first.colors ≠ [] →
          (create file_writer next).Process first = Except.ok s →
          second.points ≠ [] → second.colors = [] →
          ∃ message, s.Process second
            = Except.error (Fatal.CheckEq (message ++ second.frame_id), s) := by
  refine ⟨Process_locked_mismatch self batch hlocked hb hbad, ?_⟩
  intro file_writer next first second s hf hfc hs hsec hsc
  have hn := Process_num_points _ s first hs
  have hF := Process_flags _ s first hs
  have hpos : 0 < first.points.length := List.length_pos.mpr hf
  have hpos2 : 0 < second.points.length := List.length_pos.mpr hsec
  have hcol : s.has_colors_ = true := by
    simp only [create, hf, ne_eq, not_false_eq_true, and_self, if_true, Prod.mk.injEq] at hF
    rw [hF.1]
    simpa using hfc
  refine Process_locked_mismatch s second ?_ hsec (Or.inl ⟨hcol, ?_⟩)
  · rw [hn]
    simp only [create]
    omega
  · rw [hsc]
    simp only [List.length_nil]
    omega

theorem locked_schema_mismatch_is_fatal_witness :
    (finalState ((create acceptingFileWriter finishingNext).Process colorBatch)).num_points_ ≠ 0
      ∧ plainBatch.points ≠ []
      ∧ (finalState ((create acceptingFileWriter finishingNext).Process colorBatch)).has_colors_
          = true
      ∧ plainBatch.colors.length ≠ plainBatch.points.length
      ∧ ∃ message,
          (finalState ((create acceptingFileWriter finishingNext).Process colorBatch)).Process
              plainBatch
            = Except.error (Fatal.CheckEq (message ++ plainBatch.frame_id),
                finalState ((create acceptingFileWriter finishingNext).Process colorBatch)) :=
  ⟨by decide, by decide, by decide, by decide,
    (locked_schema_mismatch_is_fatal
      (finalState ((create acceptingFileWriter finishingNext).Process colorBatch)) plainBatch
      (by decide) (by decide) (Or.inl ⟨by decide, by decide⟩)).1⟩

end PlyCustomWritingPointsProcessor

namespace PlyCustomWritingPointsProcessor

theorem onFile_checkWrite_accept (self : PlyCustomWritingPointsProcessor) (bytes : List Nat)
    (hw : ∀ t b, self.file_.Write t b = true) :
    self.onFile (fun fw t => checkWrite fw t bytes) = Except.ok (self.record [Event.Write bytes]) := by
  simp [onFile, checkWrite, hw, record]

theorem onFile_color_accept (self : PlyCustomWritingPointsProcessor) (color : FloatColor)
    (hw : ∀ t b, self.file_.Write t b = true) :
    self.onFile (WriteCustomBinaryPlyPointColor color)
      = Except.ok (self.record [Event.Write (memcpyBytes 1 color.c0.toUint8),
          Event.Write (memcpyBytes 1 color.c1.toUint8),
          Event.Write (memcpyBytes 1 color.c2.toUint8)]) := by
  simp [onFile, WriteCustomBinaryPlyPointColor, checkWrite, hw, record, bind, Except.bind]

theorem onFile_coordinate_accept (self : PlyCustomWritingPointsProcessor) (point : Vector3f)
    (hw : ∀ t b, self.file_.Write t b = true) :
    self.onFile (WriteCustomBinaryPlyPointCoordinate point)
      = Except.ok (self.record [Event.Write (memcpyBytes 4 (point.x.bits % 2 ^ 32)
          ++ memcpyBytes 4 (point.y.bits % 2 ^ 32) ++ memcpyBytes 4 (point.z.bits % 2 ^ 32))]) :=
  onFile_checkWrite_accept self _ hw

theorem onFile_intensity_accept (self : PlyCustomWritingPointsProcessor) (intensity : Binary32)
    (hw : ∀ t b, self.file_.Write t b = true) :
    self.onFile (WriteCustomBinaryPlyPointIntensity intensity)
      = Except.ok (self.record [Event.Write (memcpyBytes 4 (intensity.bits % 2 ^ 32))]) :=
  onFile_checkWrite_accept self _ hw

theorem onFile_time_accept (self : PlyCustomWritingPointsProcessor) (time : Binary64)
    (hw : ∀ t b, self.file_.Write t b = true) :
    self.onFile (WriteCustomBinaryPlyPointTime time)
      = Except.ok (self.record [Event.Write (memcpyBytes 8 (time.bits % 2 ^ 64))]) :=
  onFile_checkWrite_accept self _ hw

theorem onFile_ring_accept (self : PlyCustomWritingPointsProcessor) (ring : Nat)
    (hw : ∀ t b, self.file_.Write t b = true) :
    self.onFile (WriteCustomBinaryPlyPointRing ring)
      = Except.ok (self.record [Event.Write (memcpyBytes 2 (ring % 2 ^ 16))]) :=
  onFile_checkWrite_accept self _ hw

theorem ite_ok_record (flag : Bool) (self : PlyCustomWritingPointsProcessor) (events : Trace) :
    (if flag = true then Except.ok (self.record events)
      else (pure self : Except (Fatal × PlyCustomWritingPointsProcessor) _))
      = Except.ok (self.record (if flag = true then events else [])) := by
  cases flag <;> simp [pure, Except.pure]

theorem processPoint_accept (self : PlyCustomWritingPointsProcessor) (batch : PointsBatch)
    (i : Nat) (hw : ∀ t b, self.file_.Write t b = true) :
    self.processPoint batch i
      = Except.ok { self.record
            (pointEvents self.has_colors_ self.has_intensity_ self.has_rings_ batch i) with
          num_points_ := self.num_points_ + 1 } := by
  have hw' : ∀ events, ∀ t b, (self.record events).file_.Write t b = true :=
    fun _ => hw
  unfold processPoint
  rw [onFile_coordinate_accept self _ hw]
  simp only [bind, Except.bind]
  rw [onFile_color_accept _ _ (hw' _), ite_ok_record]
  simp only [record_record]
  rw [onFile_intensity_accept _ _ (hw' _), ite_ok_record]
  simp only [record_record]
  rw [onFile_time_accept _ _ (hw' _)]
  simp only [record_record]
  rw [onFile_ring_accept _ _ (hw' _), ite_ok_record]
  simp only [record_record, record_num_points, record_has_colors, record_has_intensity,
    record_has_rings, pointEvents, List.append_assoc, pure, Except.pure]

theorem processPoints_accept (batch : PointsBatch) (indices : List Nat) :
    ∀ (self : PlyCustomWritingPointsProcessor), (∀ t b, self.file_.Write t b = true) →
      self.processPoints batch indices
        = Except.ok { self.record (indices.flatMap
              (pointEvents self.has_colors_ self.has_intensity_ self.has_rings_ batch)) with
            num_points_ := self.num_points_ + indices.length } := by
  induction indices with
  | nil =>
    intro self _
    simp [processPoints, pure, Except.pure]
  | cons i rest ih =>
    intro self hw
    unfold processPoints
    rw [processPoint_accept self batch i hw]
    simp only [bind, Except.bind]
    rw [ih]
    · simp [record, add_assoc, add_comm]
      omega
    · exact hw

/-- With a locked schema, sizes that pass the checks and a file writer that
accepts every write, `Process` of a non-empty batch succeeds. -/
theorem Process_locked_accept (self : PlyCustomWritingPointsProcessor) (batch : PointsBatch)
    (hlocked : self.num_points_ ≠ 0) (hb : batch.points ≠ [])
    (hw : ∀ t b, self.file_.Write t b = true)
    (hc : self.has_colors_ = true → batch.colors.length = batch.points.length)
    (hi : self.has_intensity_ = true → batch.intensities.length = batch.points.length)
    (hr : self.has_rings_ = true → batch.rings.length = batch.points.length) :
    self.Process batch
      = Except.ok { self.record
            ((List.range batch.points.length).flatMap
                (pointEvents self.has_colors_ self.has_intensity_ self.has_rings_ batch)
              ++ [Event.NextProcess batch]) with
          num_points_ := self.num_points_ + batch.points.length } := by
  have hb' : batch.points.isEmpty = false := by simpa using hb
  have c1 : ¬ (self.has_colors_ = true ∧ batch.colors.length ≠ batch.points.length) :=
    fun h => h.2 (hc h.1)
  have c2 : ¬ (self.has_intensity_ = true ∧ batch.intensities.length ≠ batch.points.length) :=
    fun h => h.2 (hi h.1)
  have c3 : ¬ (self.has_rings_ = true ∧ batch.rings.length ≠ batch.points.length) :=
    fun h => h.2 (hr h.1)
  unfold Process
  simp only [hb', Bool.false_eq_true, if_false, if_neg hlocked, guarded_checkEq_eq, pure_bind]
  rw [if_neg c1]
  simp only [bind, Except.bind]
  rw [if_neg c2]
  simp only
  rw [if_neg c3]
  simp only
  rw [processPoints_accept batch _ self hw]
  simp [forward, record, pure, Except.pure]

/-- C10 (counterexample): a fresh stage first processes a batch without
colours, which locks a schema without colour; `Process` then succeeds on a
non-empty batch that does carry colours, and appends its point as a 20-byte
record without colour. -/
theorem opposite_schema_violation_not_fatal :
    (create acceptingFileWriter finishingNext).Process plainBatch
        = Except.ok (finalState ((create acceptingFileWriter finishingNext).Process plainBatch))
      ∧ (finalState ((create acceptingFileWriter finishingNext).Process plainBatch)).has_colors_
          = false
      ∧ colorBatch.points ≠ [] ∧ colorBatch.colors ≠ []
      ∧ (finalState ((create acceptingFileWriter finishingNext).Process plainBatch)).Process
            colorBatch
          = Except.ok (finalState
              ((finalState ((create acceptingFileWriter finishingNext).Process plainBatch)).Process
                colorBatch))
      ∧ bodyBytes (finalState
            ((finalState ((create acceptingFileWriter finishingNext).Process plainBatch)).Process
              colorBatch)).trace
          = bodyBytes
              (finalState ((create acceptingFileWriter finishingNext).Process plainBatch)).trace
            ++ [0, 0, 128, 63, 0, 0, 0, 64, 0, 0, 64, 64, 0, 0, 0, 0, 0, 0, 20, 64] :=
  ⟨rfl, by decide, by decide, by decide, rfl, by decide⟩

/-- C10 (amended): an attribute that the locked schema does not carry is not
checked. Once the schema is locked, if every attribute the schema does carry
has one entry per point and the file writer accepts every write, `Process`
succeeds on a non-empty batch whatever the batch holds for the other
attributes: the schema is unchanged, each point is appended as a record of
the locked schema (an attribute outside the schema is left out), and the
batch is forwarded. -/
theorem uncommitted_attribute_is_dropped (self : PlyCustomWritingPointsProcessor)
    (batch : PointsBatch) (hlocked : self.num_points_ ≠ 0) (hb : batch.points ≠ [])
    (hw : ∀ t b, self.file_.Write t b = true)
    (hc : self.has_colors_ = true → batch.colors.length = batch.points.length)
    (hi : self.has_intensity_ = true → batch.intensities.length = batch.points.length)
    (hr : self.has_rings_ = true → batch.rings.length = batch.points.length) :
    ∃ s, self.Process batch = Except.ok s
      ∧ s.has_colors_ = self.has_colors_
      ∧ s.has_intensity_ = self.has_intensity_
      ∧ s.has_rings_ = self.has_rings_
      ∧ bodyBytes s.trace
          = bodyBytes self.trace ++ (List.range batch.points.length).flatMap
              (recordBytes self.has_colors_ self.has_intensity_ self.has_rings_ batch)
      ∧ (bodyBytes s.trace).length
          = (bodyBytes self.trace).length + batch.points.length
              * record_size self.has_colors_ self.has_intensity_ self.has_rings_
      ∧ forwarded s.trace = forwarded self.trace ++ [batch] := by
  have hP := Process_locked_accept self batch hlocked hb hw hc hi hr
  have hbody : bodyBytes (self.trace ++ ((List.range batch.points.length).flatMap
        (pointEvents self.has_colors_ self.has_intensity_ self.has_rings_ batch)
        ++ [Event.NextProcess batch]))
      = bodyBytes self.trace ++ (List.range batch.points.length).flatMap
          (recordBytes self.has_colors_ self.has_intensity_ self.has_rings_ batch) := by
    rw [bodyBytes_append, bodyBytes_append, bodyBytes_flatMap_pointEvents]
    simp [bodyBytes]
  refine ⟨_, hP, rfl, rfl, rfl, hbody, ?_, ?_⟩
  · show (bodyBytes (self.trace ++ _)).length = _
    rw [hbody, List.length_append, flatMap_recordBytes_length, List.length_range]
  · show forwarded (self.trace ++ _) = _
    rw [forwarded_append, forwarded_append, forwarded_flatMap_pointEvents]
    simp [forwarded]

theorem uncommitted_attribute_is_dropped_witness :
    (finalState ((create acceptingFileWriter finishingNext).Process plainBatch)).num_points_ ≠ 0
      ∧ colorBatch.points ≠ [] ∧ colorBatch.colors ≠ []
      ∧ (finalState ((create acceptingFileWriter finishingNext).Process plainBatch)).has_colors_
          = false
      ∧ ∃ s, (finalState ((create acceptingFileWriter finishingNext).Process plainBatch)).Process
            colorBatch = Except.ok s
          ∧ (bodyBytes s.trace).length = 20 + 1 * 20 :=
  ⟨by decide, by decide, by decide, by decide,
    (uncommitted_attribute_is_dropped
      (finalState ((create acceptingFileWriter finishingNext).Process plainBatch)) colorBatch
      (by decide) (by decide) (fun _ _ => rfl) (by decide) (by decide) (by decide)).imp
      (fun _ h => ⟨h.1, h.2.2.2.2.2.1.trans (by decide)⟩)⟩

end PlyCustomWritingPointsProcessor

namespace PlyCustomWritingPointsProcessor

/-! ## The schema over a run -/

theorem processAll_append (a b : List PointsBatch) :
    ∀ (self : PlyCustomWritingPointsProcessor),
      self.processAll (a ++ b) = self.processAll a >>= fun s => s.processAll b := by
  induction a with
  | nil =>
    intro self
    simp [processAll]
  | cons batch rest ih =>
    intro self
    simp only [List.cons_append, processAll, bind_assoc]
    congr 1
    funext s
    exact ih s

theorem processAll_empty (batches : List PointsBatch) :
    ∀ (self : PlyCustomWritingPointsProcessor), (∀ b ∈ batches, b.points = []) →
      self.processAll batches = Except.ok (self.record (batches.map Event.NextProcess)) := by
  induction batches with
  | nil =>
    intro self _
    simp [processAll, pure, Except.pure]
  | cons batch rest ih =>
    intro self h
    unfold processAll
    rw [Process_empty self batch (h batch (by simp))]
    simp only [bind, Except.bind]
    rw [ih _ (fun b hb => h b (by simp [hb]))]
    simp

theorem Process_schema_locked (self t : PlyCustomWritingPointsProcessor) (batch : PointsBatch)
    (hlocked : self.num_points_ ≠ 0) (h : self.Process batch = Except.ok t) :
    t.schema = self.schema := by
  have hF := Process_flags self t batch h
  simpa [hlocked, schema] using hF

theorem Process_schema_empty (self t : PlyCustomWritingPointsProcessor) (batch : PointsBatch)
    (hb : batch.points = []) (h : self.Process batch = Except.ok t) :
    t.schema = self.schema := by
  have hF := Process_flags self t batch h
  simpa [hb, schema] using hF

theorem processAll_schema_locked (batches : List PointsBatch) :
    ∀ (self s : PlyCustomWritingPointsProcessor), 0 < self.num_points_ →
      self.processAll batches = Except.ok s → s.schema = self.schema := by
  induction batches with
  | nil =>
    intro self s _ h
    cases h
    rfl
  | cons batch rest ih =>
    intro self s hpos h
    unfold processAll at h
    obtain ⟨s1, h1, h⟩ := bind_eq_ok h
    have hn := Process_num_points self s1 batch h1
    rw [ih s1 s (by omega) h, Process_schema_locked self s1 batch (by omega) h1]

/-- C11: in a run of a fresh stage, all three flags are false as long as only
empty batches have been processed; after the first non-empty batch they are
the non-emptiness of that batch's colours, intensities and rings; and they
still are after any further successful `Process` calls. No successful
`Process` changes a flag once the counter has left 0, nor on an empty batch. -/
theorem schema_set_once_by_first_nonempty_batch (file_writer : FileWriter)
    (next : PointsProcessor) (empties rest : List PointsBatch) (first : PointsBatch)
    (s : PlyCustomWritingPointsProcessor)
    (hempty : ∀ b ∈ empties, b.points = []) (hfirst : first.points ≠ [])
    (hrun : (create file_writer next).processAll (empties ++ first :: rest) = Except.ok s) :
    (∃ s0, (create file_writer next).processAll empties = Except.ok s0
        ∧ s0.schema = (false, false, false))
      ∧ (∃ s1, (create file_writer next).processAll (empties ++ [first]) = Except.ok s1
        ∧ s1.schema
          = (!first.colors.isEmpty, !first.intensities.isEmpty, !first.rings.isEmpty))
      ∧ s.schema = (!first.colors.isEmpty, !first.intensities.isEmpty, !first.rings.isEmpty)
      ∧ (∀ (self t : PlyCustomWritingPointsProcessor) (batch : PointsBatch),
          self.num_points_ ≠ 0 → self.Process batch = Except.ok t → t.schema = self.schema)
      ∧ (∀ (self t : PlyCustomWritingPointsProcessor) (batch : PointsBatch),
          batch.points = [] → self.Process batch = Except.ok t → t.schema = self.schema) := by
  have h0 := processAll_empty empties (create file_writer next) hempty
  rw [processAll_append, h0] at hrun
  simp only [bind, Except.bind, processAll] at hrun
  obtain ⟨s1, h1, hrest⟩ := bind_eq_ok hrun
  have hF := Process_flags _ s1 first h1
  have hn := Process_num_points _ s1 first h1
  have hlen : 0 < first.points.length := List.length_pos.mpr hfirst
  have hs1 : s1.schema
      = (!first.colors.isEmpty, !first.intensities.isEmpty, !first.rings.isEmpty) := by
    simpa [hfirst, create, schema] using hF
  have hpos : 0 < s1.num_points_ := by
    rw [hn]
    simp only [record_num_points, create]
    omega
  refine ⟨⟨_, h0, rfl⟩, ⟨s1, ?_, hs1⟩, ?_, Process_schema_locked, Process_schema_empty⟩
  · rw [processAll_append, h0]
    simp only [bind, Except.bind, processAll]
    rw [h1]
    rfl
  · rw [processAll_schema_locked rest s1 s hpos hrest, hs1]

theorem schema_set_once_by_first_nonempty_batch_witness :
    (∀ b ∈ [emptyBatch], b.points = []) ∧ colorRingBatch.points ≠ []
      ∧ (create acceptingFileWriter finishingNext).processAll
            ([emptyBatch] ++ colorRingBatch :: [emptyBatch, colorRingBatch])
          = Except.ok (finalState ((create acceptingFileWriter finishingNext).processAll
              ([emptyBatch] ++ colorRingBatch :: [emptyBatch, colorRingBatch])))
      ∧ (finalState ((create acceptingFileWriter finishingNext).processAll
            ([emptyBatch] ++ colorRingBatch :: [emptyBatch, colorRingBatch]))).schema
          = (true, false, true) :=
  ⟨by decide, by decide, rfl,
    (schema_set_once_by_first_nonempty_batch acceptingFileWriter finishingNext [emptyBatch]
      [emptyBatch, colorRingBatch] colorRingBatch _ (by decide) (by decide) rfl).2.2.1⟩

end PlyCustomWritingPointsProcessor

namespace PlyCustomWritingPointsProcessor

/-! ## `Flush` in every outcome -/

theorem Flush_bodyBytes (self : PlyCustomWritingPointsProcessor) :
    bodyBytes (flushState self.Flush).trace = bodyBytes self.trace := by
  unfold Flush
  simp only [onFile, WriteCustomBinaryPlyHeader, checkWriteHeader, checkClose, bind, Except.bind,
    pure, Except.pure, throw, throwThe, MonadExceptOf.throw]
  cases hw : self.file_.WriteHeader self.trace (stringBytes
      (headerText self.has_colors_ self.has_intensity_ self.has_rings_ self.num_points_))
  · simp [flushState, bodyBytes_append, bodyBytes]
  · cases hc : self.file_.Close (self.trace ++ [Event.WriteHeader (stringBytes
        (headerText self.has_colors_ self.has_intensity_ self.has_rings_ self.num_points_))])
    · simp [flushState, bodyBytes_append, bodyBytes, hc]
    · simp only [if_true, hc]
      split <;> simp [flushState, bodyBytes_append, bodyBytes]

theorem Flush_close (self : PlyCustomWritingPointsProcessor)
    (hw : self.file_.WriteHeader self.trace (stringBytes
      (headerText self.has_colors_ self.has_intensity_ self.has_rings_ self.num_points_))
        = true) :
    ∃ later, (flushState self.Flush).trace
      = self.trace
        ++ [Event.WriteHeader (stringBytes
              (headerText self.has_colors_ self.has_intensity_ self.has_rings_
                self.num_points_)),
            Event.Close]
        ++ later := by
  unfold Flush
  simp only [onFile, WriteCustomBinaryPlyHeader, checkWriteHeader, checkClose, bind, Except.bind,
    pure, Except.pure, throw, throwThe, MonadExceptOf.throw, hw, if_true]
  cases hc : self.file_.Close (self.trace ++ [Event.WriteHeader (stringBytes
      (headerText self.has_colors_ self.has_intensity_ self.has_rings_ self.num_points_))])
  · exact ⟨[], by simp [flushState]⟩
  · simp only [if_true]
    split <;> exact ⟨[Event.NextFlush], by simp [flushState]⟩

set_option maxRecDepth 20000 in
/-- C12: when a fresh stage has processed no batch, or only empty ones, the
run succeeds, and `Flush` then hands over exactly one header: the one for the
schema without optional attributes and count 0. The bytes handed to the file
writer are ASCII codes and spell a text whose count line reads
`element vertex 000000000000000` and whose property lines are x, y, z and
time. No body byte is written. If the file writer accepts the header the file
is closed right after it, and a `Flush` that returns has made exactly the
calls header write, close, and flush of the next stage. -/
theorem flush_of_empty_stream (file_writer : FileWriter) (next : PointsProcessor)
    (batches : List PointsBatch) (hempty : ∀ b ∈ batches, b.points = []) :
    ∃ s, (create file_writer next).processAll batches = Except.ok s
      ∧ headerWrites (flushState s.Flush).trace
          = [stringBytes (headerText false false false 0)]
      ∧ "element vertex 000000000000000".toList
          ∈ splitLines (headerText false false false 0).toList
      ∧ declaredCount (headerText false false false 0).toList = some 0
      ∧ propertyLines (headerText false false false 0).toList
          = [("float".toList, "x".toList), ("float".toList, "y".toList),
              ("float".toList, "z".toList), ("double".toList, "time".toList)]
      ∧ bodyBytes (flushState s.Flush).trace = []
      ∧ (file_writer.WriteHeader s.trace (stringBytes (headerText false false false 0)) = true →
          ∃ later, (flushState s.Flush).trace
            = batches.map Event.NextProcess
              ++ [Event.WriteHeader (stringBytes (headerText false false false 0)), Event.Close]
              ++ later)
      ∧ (∀ bytes ∈ headerWrites (flushState s.Flush).trace,
          (∀ b ∈ bytes, b < 128)
            ∧ bytesText bytes
                = "ply\nformat binary_little_endian 1.0\ncomment Point cloud hypnotized and smoothly lured from the basket by the almighty snake charmer: Kamikaze Viper\nelement vertex 000000000000000\nproperty float x\nproperty float y\nproperty float z\nproperty double time\nend_header\n".toList
            ∧ "element vertex 000000000000000".toList ∈ splitLines (bytesText bytes)
            ∧ declaredCount (bytesText bytes) = some 0
            ∧ propertyLines (bytesText bytes)
                = [("float".toList, "x".toList), ("float".toList, "y".toList),
                    ("float".toList, "z".toList), ("double".toList, "time".toList)])
      ∧ ∀ r s', s.Flush = Except.ok (r, s') →
          s'.trace = batches.map Event.NextProcess
            ++ [Event.WriteHeader (stringBytes (headerText false false false 0)),
                Event.Close, Event.NextFlush] := by
  have hnoHeader : ∀ l : List PointsBatch, headerWrites (l.map Event.NextProcess) = [] := by
    intro l
    induction l with
    | nil => rfl
    | cons b rest ih => simpa [headerWrites] using ih
  have hnoBody : ∀ l : List PointsBatch, bodyBytes (l.map Event.NextProcess) = [] := by
    intro l
    induction l with
    | nil => rfl
    | cons b rest ih => simpa [bodyBytes] using ih
  have hheader : headerWrites (flushState ((create file_writer next).record
      (batches.map Event.NextProcess)).Flush).trace
        = [stringBytes (headerText false false false 0)] := by
    rw [Flush_headerWrites]
    simp [create, hnoHeader, headerWrites]
  refine ⟨_, processAll_empty batches (create file_writer next) hempty, hheader, by decide,
    by decide, by decide, ?_, ?_, ?_, ?_⟩
  · rw [Flush_bodyBytes]
    simp [create, hnoBody, bodyBytes]
  · intro hw
    obtain ⟨later, hl⟩ := Flush_close ((create file_writer next).record
      (batches.map Event.NextProcess)) hw
    exact ⟨later, by simpa [create] using hl⟩
  · intro bytes hbytes
    rw [hheader, List.mem_singleton] at hbytes
    subst hbytes
    rw [bytesText_stringBytes]
    exact ⟨headerBytes_ascii false false false 0 (le_refl 0), by decide, by decide, by decide,
      by decide⟩
  · intro r s' h
    rw [(Flush_ok _ s' r h).2]
    simp [create, record]

set_option maxRecDepth 20000 in
theorem flush_of_empty_stream_witness :
    (∀ b ∈ [emptyBatch, emptyBatch], b.points = [])
      ∧ ∃ s, (create acceptingFileWriter finishingNext).processAll [emptyBatch, emptyBatch]
            = Except.ok s
          ∧ headerWrites (flushState s.Flush).trace
              = [stringBytes (headerText false false false 0)]
          ∧ bodyBytes (flushState s.Flush).trace = []
          ∧ (headerWrites (flushState s.Flush).trace).map bytesText
              = ["ply\nformat binary_little_endian 1.0\ncomment Point cloud hypnotized and smoothly lured from the basket by the almighty snake charmer: Kamikaze Viper\nelement vertex 000000000000000\nproperty float x\nproperty float y\nproperty float z\nproperty double time\nend_header\n".toList] :=
  ⟨by decide,
    (flush_of_empty_stream acceptingFileWriter finishingNext [emptyBatch, emptyBatch]
      (by decide)).imp (fun _ h => ⟨h.1, h.2.1, h.2.2.2.2.2.1,
        (congrArg (List.map bytesText) h.2.1).trans (by decide)⟩)⟩

/-- C13: when the header write and the close succeed, `Flush` returns
`kFinished` exactly when the next stage's `Flush` returns `kFinished`; it
aborts with `LOG(FATAL)` when the next stage asks for a restart; and whatever
the file writer does, a `Flush` that returns never returns `kRestartStream`. -/
theorem flush_propagates_finished_rejects_restart (self : PlyCustomWritingPointsProcessor)
    (hw : self.file_.WriteHeader self.trace (stringBytes
      (headerText self.has_colors_ self.has_intensity_ self.has_rings_ self.num_points_))
        = true)
    (hc : self.file_.Close (self.trace ++ [Event.WriteHeader (stringBytes
      (headerText self.has_colors_ self.has_intensity_ self.has_rings_ self.num_points_))])
        = true) :
    ((∃ s', self.Flush = Except.ok (FlushResult.kFinished, s'))
        ↔ self.next_.Flush (self.trace ++ [Event.WriteHeader (stringBytes
            (headerText self.has_colors_ self.has_intensity_ self.has_rings_
              self.num_points_))] ++ [Event.Close]) = FlushResult.kFinished)
      ∧ (self.next_.Flush (self.trace ++ [Event.WriteHeader (stringBytes
            (headerText self.has_colors_ self.has_intensity_ self.has_rings_
              self.num_points_))] ++ [Event.Close]) = FlushResult.kRestartStream →
          ∃ message s', self.Flush = Except.error (Fatal.LogFatal message, s'))
      ∧ ∀ r s', self.Flush = Except.ok (r, s') → r = FlushResult.kFinished := by
  refine ⟨?_, ?_, fun r s' h => (Flush_ok self s' r h).1⟩
  · unfold Flush
    simp only [onFile, WriteCustomBinaryPlyHeader, checkWriteHeader, checkClose, bind,
      Except.bind, pure, Except.pure, throw, throwThe, MonadExceptOf.throw, hw, hc, if_true]
    cases hn : self.next_.Flush (self.trace ++ [Event.WriteHeader (stringBytes
        (headerText self.has_colors_ self.has_intensity_ self.has_rings_
          self.num_points_))] ++ [Event.Close])
    · simp
    · simp
  · intro hn
    unfold Flush
    simp only [onFile, WriteCustomBinaryPlyHeader, checkWriteHeader, checkClose, bind,
      Except.bind, pure, Except.pure, throw, throwThe, MonadExceptOf.throw, hw, hc, if_true, hn]
    exact ⟨_, _, rfl⟩

theorem flush_propagates_finished_rejects_restart_witness :
    (create acceptingFileWriter restartingNext).file_.WriteHeader [] (stringBytes
        (headerText false false false 0)) = true
      ∧ (create acceptingFileWriter restartingNext).file_.Close [Event.WriteHeader (stringBytes
          (headerText false false false 0))] = true
      ∧ ∃ message s', (create acceptingFileWriter restartingNext).Flush
          = Except.error (Fatal.LogFatal message, s') :=
  ⟨rfl, rfl,
    (flush_propagates_finished_rejects_restart (create acceptingFileWriter restartingNext)
      rfl rfl).2.1 rfl⟩

end PlyCustomWritingPointsProcessor

/-! ## Calls made by one `Process` -/

theorem sinkCalls_append (a b : Trace) : sinkCalls (a ++ b) = sinkCalls a ++ sinkCalls b := by
  simp [sinkCalls]

theorem pointEvents_isWrite (hc hi hr : Bool) (batch : PointsBatch) (i : Nat) :
    ∀ e ∈ pointEvents hc hi hr batch i, e.isWrite = true := by
  cases hc <;> cases hi <;> cases hr <;> simp [pointEvents, Event.isWrite]

theorem flatMap_pointEvents_isWrite (hc hi hr : Bool) (batch : PointsBatch)
    (indices : List Nat) :
    ∀ e ∈ indices.flatMap (pointEvents hc hi hr batch), e.isWrite = true := by
  intro e he
  obtain ⟨i, _, hi'⟩ := List.mem_flatMap.mp he
  exact pointEvents_isWrite hc hi hr batch i e hi'

theorem isSinkCall_of_isWrite (e : Event) (h : e.isWrite = true) : e.isSinkCall = true := by
  cases e <;> simp_all [Event.isWrite, Event.isSinkCall]

namespace PlyCustomWritingPointsProcessor

theorem Process_trace (self s : PlyCustomWritingPointsProcessor) (batch : PointsBatch)
    (h : self.Process batch = Except.ok s) :
    s.trace
      = self.trace
        ++ ((if batch.points ≠ [] ∧ self.num_points_ = 0 then
              [Event.WriteHeader (stringBytes
                (headerText s.has_colors_ s.has_intensity_ s.has_rings_ 0))]
            else [])
          ++ (List.range batch.points.length).flatMap
              (pointEvents s.has_colors_ s.has_intensity_ s.has_rings_ batch))
        ++ [Event.NextProcess batch] := by
  by_cases hb : batch.points = []
  · rw [Process_empty self batch hb] at h
    cases h
    simp [hb]
  · have hs := (Process_ok self s batch hb h).1
    subst hs
    have ht : (self.lockSchema batch).trace = self.trace := by
      unfold lockSchema
      split <;> rfl
    show (self.lockSchema batch).trace ++ _ = _
    rw [ht]
    by_cases h0 : self.num_points_ = 0
    · simp [hb, h0, placeholderEvents, lockSchema, record]
    · simp [hb, h0, placeholderEvents, lockSchema, record]

/-- C14: `Process` on a batch without points always succeeds, whatever the
attribute sequences of the batch hold; the schema flags and the counter are
unchanged, the only call made is the forwarding of the batch to the next
stage, so no call reaches the file writer: no header and no body byte. -/
theorem process_empty_batch_only_forwards (self : PlyCustomWritingPointsProcessor)
    (batch : PointsBatch) (hb : batch.points = []) :
    ∃ s, self.Process batch = Except.ok s
      ∧ s.schema = self.schema
      ∧ s.num_points_ = self.num_points_
      ∧ s.trace = self.trace ++ [Event.NextProcess batch]
      ∧ sinkCalls s.trace = sinkCalls self.trace
      ∧ headerWrites s.trace = headerWrites self.trace
      ∧ bodyBytes s.trace = bodyBytes self.trace
      ∧ forwarded s.trace = forwarded self.trace ++ [batch] := by
  refine ⟨_, Process_empty self batch hb, rfl, rfl, rfl, ?_, ?_, ?_, ?_⟩
  · show sinkCalls (self.trace ++ _) = _
    rw [sinkCalls_append]
    simp [sinkCalls, Event.isSinkCall]
  · show headerWrites (self.trace ++ _) = _
    rw [headerWrites_append]
    simp [headerWrites]
  · show bodyBytes (self.trace ++ _) = _
    rw [bodyBytes_append]
    simp [bodyBytes]
  · show forwarded (self.trace ++ _) = _
    rw [forwarded_append]
    simp [forwarded]

theorem process_empty_batch_only_forwards_witness :
    emptyBatch.points = [] ∧ emptyBatch.colors ≠ []
      ∧ ∃ s, (finalState ((create acceptingFileWriter finishingNext).Process
              colorRingBatch)).Process emptyBatch = Except.ok s
          ∧ s.schema = (true, false, true) ∧ s.num_points_ = 2 :=
  ⟨rfl, by decide,
    (process_empty_batch_only_forwards
      (finalState ((create acceptingFileWriter finishingNext).Process colorRingBatch))
      emptyBatch rfl).imp
      (fun _ h => ⟨h.1, h.2.1.trans (by decide), h.2.2.1.trans (by decide)⟩)⟩

/-- C15: a successful `Process` makes its calls in this order: calls on the
file writer only (among them the writes of every record of the batch, in
order), and then, as its last call, one forwarding of the batch it received,
unchanged, to the next stage; the batch is forwarded exactly once. -/
theorem process_forwards_once_after_records (self s : PlyCustomWritingPointsProcessor)
    (batch : PointsBatch) (h : self.Process batch = Except.ok s) :
    ∃ sink, s.trace = self.trace ++ sink ++ [Event.NextProcess batch]
      ∧ (∀ e ∈ sink, e.isSinkCall = true)
      ∧ forwarded sink = []
      ∧ bodyBytes sink = (List.range batch.points.length).flatMap
          (recordBytes s.has_colors_ s.has_intensity_ s.has_rings_ batch)
      ∧ forwarded s.trace = forwarded self.trace ++ [batch] := by
  have ht := Process_trace self s batch h
  have hsink : ∀ e ∈ ((if batch.points ≠ [] ∧ self.num_points_ = 0 then
        [Event.WriteHeader (stringBytes
          (headerText s.has_colors_ s.has_intensity_ s.has_rings_ 0))]
      else [])
      ++ (List.range batch.points.length).flatMap
          (pointEvents s.has_colors_ s.has_intensity_ s.has_rings_ batch)),
      e.isSinkCall = true := by
    intro e he
    rcases List.mem_append.mp he with he | he
    · split at he
      · rw [List.mem_singleton.mp he]
        rfl
      · cases he
    · exact isSinkCall_of_isWrite e (flatMap_pointEvents_isWrite _ _ _ batch _ e he)
  have hfw : forwarded ((if batch.points ≠ [] ∧ self.num_points_ = 0 then
        [Event.WriteHeader (stringBytes
          (headerText s.has_colors_ s.has_intensity_ s.has_rings_ 0))]
      else [])
      ++ (List.range batch.points.length).flatMap
          (pointEvents s.has_colors_ s.has_intensity_ s.has_rings_ batch)) = [] := by
    rw [forwarded_append, forwarded_flatMap_pointEvents]
    split <;> rfl
  refine ⟨_, ht, hsink, hfw, ?_, ?_⟩
  · rw [bodyBytes_append, bodyBytes_flatMap_pointEvents]
    split <;> rfl
  · rw [ht, forwarded_append, forwarded_append, hfw]
    simp [forwarded]

theorem process_forwards_once_after_records_witness :
    (create acceptingFileWriter finishingNext).Process colorRingBatch
        = Except.ok (finalState ((create acceptingFileWriter finishingNext).Process
            colorRingBatch))
      ∧ forwarded (finalState ((create acceptingFileWriter finishingNext).Process
            colorRingBatch)).trace = [colorRingBatch]
      ∧ (finalState ((create acceptingFileWriter finishingNext).Process
            colorRingBatch)).trace.getLast? = some (Event.NextProcess colorRingBatch) :=
  ⟨rfl,
    ((process_forwards_once_after_records (create acceptingFileWriter finishingNext) _
      colorRingBatch rfl).choose_spec.2.2.2.2).trans (by decide),
    by decide⟩

end PlyCustomWritingPointsProcessor

namespace PlyCustomWritingPointsProcessor

/-! ## `Process` with an accepting file writer -/

theorem onFile_header_accept (self : PlyCustomWritingPointsProcessor) (hc hi hr : Bool)
    (n : Int) (hwh : ∀ t b, self.file_.WriteHeader t b = true) :
    self.onFile (WriteCustomBinaryPlyHeader hc hi hr n)
      = Except.ok (self.record [Event.WriteHeader (stringBytes (headerText hc hi hr n))]) := by
  simp [onFile, WriteCustomBinaryPlyHeader, checkWriteHeader, hwh, record]

/-- With sizes that pass the checks and a file writer that accepts every
write, `Process` of a non-empty batch succeeds, whether or not the schema is
locked already. -/
theorem Process_accept (self : PlyCustomWritingPointsProcessor) (batch : PointsBatch)
    (hb : batch.points ≠ [])
    (hwh : ∀ t b, self.file_.WriteHeader t b = true)
    (hw : ∀ t b, self.file_.Write t b = true)
    (hc : (self.lockSchema batch).has_colors_ = true →
      batch.colors.length = batch.points.length)
    (hi : (self.lockSchema batch).has_intensity_ = true →
      batch.intensities.length = batch.points.length)
    (hr : (self.lockSchema batch).has_rings_ = true →
      batch.rings.length = batch.points.length) :
    self.Process batch
      = Except.ok { (self.lockSchema batch).record
            (self.placeholderEvents batch
              ++ (List.range batch.points.length).flatMap
                  (pointEvents (self.lockSchema batch).has_colors_
                    (self.lockSchema batch).has_intensity_
                    (self.lockSchema batch).has_rings_ batch)
              ++ [Event.NextProcess batch]) with
          num_points_ := self.num_points_ + batch.points.length } := by
  by_cases h0 : self.num_points_ = 0
  · have hb' : batch.points.isEmpty = false := by simpa using hb
    simp only [lockSchema, if_pos h0] at hc hi hr
    have c1 : ¬ ((!batch.colors.isEmpty) = true ∧ batch.colors.length ≠ batch.points.length) :=
      fun h => h.2 (hc h.1)
    have c2 : ¬ ((!batch.intensities.isEmpty) = true
        ∧ batch.intensities.length ≠ batch.points.length) :=
      fun h => h.2 (hi h.1)
    have c3 : ¬ ((!batch.rings.isEmpty) = true ∧ batch.rings.length ≠ batch.points.length) :=
      fun h => h.2 (hr h.1)
    unfold Process
    simp only [hb', Bool.false_eq_true, if_false, if_pos h0, guarded_checkEq_eq]
    rw [onFile_header_accept]
    swap
    · exact hwh
    simp only [bind, Except.bind, record_has_colors, record_has_intensity, record_has_rings]
    rw [if_neg c1]
    simp only [record_has_colors, record_has_intensity, record_has_rings]
    rw [if_neg c2]
    simp only [record_has_colors, record_has_intensity, record_has_rings]
    rw [if_neg c3]
    simp only
    rw [processPoints_accept]
    swap
    · exact hw
    simp [forward, record, pure, Except.pure, lockSchema, placeholderEvents, h0]
  · have hl : self.lockSchema batch = self := by simp [lockSchema, h0]
    rw [hl] at hc hi hr ⊢
    rw [Process_locked_accept self batch h0 hb hw hc hi hr]
    simp [placeholderEvents, h0]

/-- C16 (counterexample): a fresh stage is flushed successfully, which closes
the file; a `Process` call made afterwards with a batch without points does
not abort: it returns and forwards the batch to the next stage. -/
theorem process_after_flush_not_fatal :
    (create acceptingFileWriter finishingNext).Flush
        = Except.ok (FlushResult.kFinished,
            flushState (create acceptingFileWriter finishingNext).Flush)
      ∧ Event.Close ∈ (flushState (create acceptingFileWriter finishingNext).Flush).trace
      ∧ (flushState (create acceptingFileWriter finishingNext).Flush).Process emptyBatch
          = Except.ok (finalState
              ((flushState (create acceptingFileWriter finishingNext).Flush).Process emptyBatch))
      ∧ forwarded (finalState
            ((flushState (create acceptingFileWriter finishingNext).Flush).Process
              emptyBatch)).trace = [emptyBatch] :=
  ⟨rfl, by decide, rfl, by decide⟩

/-- C16 (amended): the stage keeps no record of having been flushed and does
not itself refuse `Process` calls made after `Flush`. A successful `Flush`
leaves the schema flags and the counter as they were; afterwards `Process` on
a batch without points always succeeds and forwards the batch, and `Process`
on a non-empty batch succeeds, appending the batch's records and forwarding
the batch, whenever the attribute sizes pass the checks and the file writer
accepts the writes. -/
theorem process_after_flush_not_refused (s s' : PlyCustomWritingPointsProcessor)
    (r : FlushResult) (hflush : s.Flush = Except.ok (r, s')) :
    s'.schema = s.schema
      ∧ s'.num_points_ = s.num_points_
      ∧ Event.Close ∈ s'.trace
      ∧ (∀ batch : PointsBatch, batch.points = [] →
          s'.Process batch = Except.ok (s'.record [Event.NextProcess batch]))
      ∧ ∀ batch : PointsBatch, batch.points ≠ [] →
          (∀ t b, s.file_.WriteHeader t b = true) →
          (∀ t b, s.file_.Write t b = true) →
          ((s'.lockSchema batch).has_colors_ = true →
            batch.colors.length = batch.points.length) →
          ((s'.lockSchema batch).has_intensity_ = true →
            batch.intensities.length = batch.points.length) →
          ((s'.lockSchema batch).has_rings_ = true →
            batch.rings.length = batch.points.length) →
          ∃ t, s'.Process batch = Except.ok t
            ∧ bodyBytes t.trace
                = bodyBytes s'.trace ++ (List.range batch.points.length).flatMap
                    (recordBytes t.has_colors_ t.has_intensity_ t.has_rings_ batch)
            ∧ forwarded t.trace = forwarded s'.trace ++ [batch] := by
  have hs' := (Flush_ok s s' r hflush).2
  refine ⟨by rw [hs']; rfl, by rw [hs']; rfl, by rw [hs']; simp [record],
    fun batch hb => Process_empty s' batch hb, ?_⟩
  intro batch hb hwh hw hc hi hr
  have hfile : s'.file_ = s.file_ := by rw [hs']; rfl
  have hP := Process_accept s' batch hb (by rw [hfile]; exact hwh) (by rw [hfile]; exact hw)
    hc hi hr
  refine ⟨_, hP, Process_bodyBytes s' _ batch hP, ?_⟩
  have ht := Process_trace s' _ batch hP
  rw [ht, forwarded_append, forwarded_append, forwarded_append,
    forwarded_flatMap_pointEvents]
  split <;> simp [forwarded]

theorem process_after_flush_not_refused_witness :
    (finalState ((create acceptingFileWriter finishingNext).Process plainBatch)).Flush
        = Except.ok (FlushResult.kFinished, flushState
            (finalState ((create acceptingFileWriter finishingNext).Process plainBatch)).Flush)
      ∧ (flushState
          (finalState ((create acceptingFileWriter finishingNext).Process plainBatch)).Flush
          ).num_points_ = 1
      ∧ ∃ t, (flushState
            (finalState ((create acceptingFileWriter finishingNext).Process plainBatch)).Flush
            ).Process plainBatch = Except.ok t
          ∧ forwarded t.trace = [plainBatch, plainBatch] :=
  ⟨rfl,
    (process_after_flush_not_refused
      (finalState ((create acceptingFileWriter finishingNext).Process plainBatch)) _ _
      rfl).2.1.trans (by decide),
    ((process_after_flush_not_refused
      (finalState ((create acceptingFileWriter finishingNext).Process plainBatch)) _ _
      rfl).2.2.2.2 plainBatch (by decide) (fun _ _ => rfl) (fun _ _ => rfl)
        (by decide) (by decide) (by decide)).imp
      (fun _ h => ⟨h.1, h.2.2.trans (by decide)⟩)⟩

end PlyCustomWritingPointsProcessor

/-! ## Order of the calls on the file writer -/

theorem sinkCalls_of_isWrite (events : Trace) (h : ∀ e ∈ events, e.isWrite = true) :
    sinkCalls events = events := by
  unfold sinkCalls
  rw [List.filter_eq_self]
  exact fun e he => isSinkCall_of_isWrite e (h e he)

theorem totalPoints_pos (batches : List PointsBatch) (h : ∃ b ∈ batches, b.points ≠ []) :
    0 < totalPoints batches := by
  obtain ⟨b, hb, hne⟩ := h
  induction batches with
  | nil => cases hb
  | cons a rest ih =>
    simp only [totalPoints, List.map_cons, List.sum_cons]
    rcases List.mem_cons.mp hb with hb | hb
    · subst hb
      have := List.length_pos.mpr hne
      omega
    · have := ih hb
      simp only [totalPoints] at this
      omega

namespace PlyCustomWritingPointsProcessor

theorem Process_sinkCalls (self s : PlyCustomWritingPointsProcessor) (batch : PointsBatch)
    (h : self.Process batch = Except.ok s) :
    sinkCalls s.trace
      = sinkCalls self.trace
        ++ (if batch.points ≠ [] ∧ self.num_points_ = 0 then
              [Event.WriteHeader (stringBytes
                (headerText s.has_colors_ s.has_intensity_ s.has_rings_ 0))]
            else [])
        ++ (List.range batch.points.length).flatMap
            (pointEvents s.has_colors_ s.has_intensity_ s.has_rings_ batch) := by
  rw [Process_trace self s batch h, sinkCalls_append, sinkCalls_append, sinkCalls_append,
    sinkCalls_of_isWrite _ (flatMap_pointEvents_isWrite _ _ _ batch _)]
  have h1 : sinkCalls [Event.NextProcess batch] = [] := rfl
  rw [h1, List.append_nil, List.append_assoc]
  congr 2
  split <;> rfl

theorem create_sinkOrdered (file_writer : FileWriter) (next : PointsProcessor) :
    SinkOrdered (create file_writer next) := by
  simp [SinkOrdered, create, sinkCalls]

theorem Process_sinkOrdered (self s : PlyCustomWritingPointsProcessor) (batch : PointsBatch)
    (hinv : SinkOrdered self) (h : self.Process batch = Except.ok s) : SinkOrdered s := by
  obtain ⟨hnn, hord⟩ := hinv
  have hn := Process_num_points self s batch h
  have hS := Process_sinkCalls self s batch h
  have hF := Process_flags self s batch h
  have hW := flatMap_pointEvents_isWrite s.has_colors_ s.has_intensity_ s.has_rings_ batch
    (List.range batch.points.length)
  refine ⟨by omega, ?_⟩
  by_cases hb : batch.points = []
  · have hn' : s.num_points_ = self.num_points_ := by simpa [hb] using hn
    simp only [hb, ne_eq, not_true_eq_false, false_and, if_false, Prod.mk.injEq] at hF
    rw [hn', hF.1, hF.2.1, hF.2.2]
    have hS' : sinkCalls s.trace = sinkCalls self.trace := by
      simpa [hb] using hS
    rw [hS']
    exact hord
  · have hpos : 0 < batch.points.length := List.length_pos.mpr hb
    have hne : s.num_points_ ≠ 0 := by omega
    rw [if_neg hne]
    by_cases h0 : self.num_points_ = 0
    · rw [if_pos h0] at hord
      rw [hord, if_pos ⟨hb, h0⟩] at hS
      exact ⟨_, hS, hW⟩
    · rw [if_neg h0] at hord
      obtain ⟨writes, hw1, hw2⟩ := hord
      simp only [h0, and_false, if_false, Prod.mk.injEq] at hF
      rw [hw1, if_neg (fun hx => h0 hx.2)] at hS
      refine ⟨writes ++ (List.range batch.points.length).flatMap
        (pointEvents s.has_colors_ s.has_intensity_ s.has_rings_ batch), ?_, ?_⟩
      · rw [hS, hF.1, hF.2.1, hF.2.2]
        simp
      · intro e he
        rcases List.mem_append.mp he with he | he
        · exact hw2 e he
        · exact hW e he

theorem processAll_sinkOrdered (batches : List PointsBatch) :
    ∀ (self s : PlyCustomWritingPointsProcessor), SinkOrdered self →
      self.processAll batches = Except.ok s → SinkOrdered s := by
  induction batches with
  | nil =>
    intro self s hinv h
    cases h
    exact hinv
  | cons batch rest ih =>
    intro self s hinv h
    unfold processAll at h
    obtain ⟨s1, h1, h⟩ := bind_eq_ok h
    exact ih s1 s (Process_sinkOrdered self s1 batch hinv h1) h

/-- C17: in a successful run of a fresh stage that processes at least one
non-empty batch and is then flushed, the calls made on the file writer are,
in order: one header write (the placeholder: count 0, the locked schema),
then `Write` calls only (which carry the whole body), then one header write
(the final header: same schema, the true count), then one close. So nothing is
appended before the placeholder, and the placeholder is written once. -/
theorem sink_calls_placeholder_body_header_close (file_writer : FileWriter)
    (next : PointsProcessor) (batches : List PointsBatch)
    (s s' : PlyCustomWritingPointsProcessor) (r : FlushResult)
    (hsome : ∃ b ∈ batches, b.points ≠ [])
    (hrun : (create file_writer next).processAll batches = Except.ok s)
    (hflush : s.Flush = Except.ok (r, s')) :
    ∃ writes, sinkCalls s'.trace
        = [Event.WriteHeader (stringBytes
            (headerText s.has_colors_ s.has_intensity_ s.has_rings_ 0))]
          ++ writes
          ++ [Event.WriteHeader (stringBytes
                (headerText s.has_colors_ s.has_intensity_ s.has_rings_ (totalPoints batches))),
              Event.Close]
      ∧ (∀ e ∈ writes, e.isWrite = true)
      ∧ bodyBytes writes = bodyBytes s'.trace := by
  obtain ⟨_, hn⟩ := processAll_consistent batches _ s (create_consistent file_writer next) hrun
  have hn' : s.num_points_ = (totalPoints batches : Int) := by simpa [create] using hn
  have hpos := totalPoints_pos batches hsome
  obtain ⟨_, hord⟩ := processAll_sinkOrdered batches _ s
    (create_sinkOrdered file_writer next) hrun
  rw [if_neg (by omega)] at hord
  obtain ⟨writes, hw1, hw2⟩ := hord
  have hs' := (Flush_ok s s' r hflush).2
  have hcalls : sinkCalls s'.trace
      = [Event.WriteHeader (stringBytes
          (headerText s.has_colors_ s.has_intensity_ s.has_rings_ 0))]
        ++ writes
        ++ [Event.WriteHeader (stringBytes
              (headerText s.has_colors_ s.has_intensity_ s.has_rings_ (totalPoints batches))),
            Event.Close] := by
    rw [hs', ← hn']
    show sinkCalls (s.trace ++ _) = _
    rw [sinkCalls_append, hw1]
    simp [sinkCalls, Event.isSinkCall]
  refine ⟨writes, hcalls, hw2, ?_⟩
  have hfilter : ∀ t : Trace, bodyBytes (sinkCalls t) = bodyBytes t := by
    intro t
    induction t with
    | nil => rfl
    | cons e rest ih =>
      cases e <;> simp [sinkCalls, Event.isSinkCall, bodyBytes] <;>
        simpa [sinkCalls] using ih
  rw [← hfilter s'.trace, hcalls]
  simp [bodyBytes_append, bodyBytes]

theorem sink_calls_placeholder_body_header_close_witness :
    (∃ b ∈ [emptyBatch, plainBatch, plainBatch], b.points ≠ [])
      ∧ (create acceptingFileWriter finishingNext).processAll
            [emptyBatch, plainBatch, plainBatch]
          = Except.ok (finalState ((create acceptingFileWriter finishingNext).processAll
              [emptyBatch, plainBatch, plainBatch]))
      ∧ (finalState ((create acceptingFileWriter finishingNext).processAll
            [emptyBatch, plainBatch, plainBatch])).Flush
          = Except.ok (FlushResult.kFinished, flushState
              (finalState ((create acceptingFileWriter finishingNext).processAll
                [emptyBatch, plainBatch, plainBatch])).Flush)
      ∧ ∃ writes, sinkCalls (flushState
            (finalState ((create acceptingFileWriter finishingNext).processAll
              [emptyBatch, plainBatch, plainBatch])).Flush).trace
          = [Event.WriteHeader (stringBytes (headerText false false false 0))]
            ++ writes
            ++ [Event.WriteHeader (stringBytes (headerText false false false 2)), Event.Close]
          ∧ (∀ e ∈ writes, e.isWrite = true) :=
  ⟨by decide, rfl, rfl,
    (sink_calls_placeholder_body_header_close acceptingFileWriter finishingNext
      [emptyBatch, plainBatch, plainBatch] _ _ _ (by decide) rfl rfl).imp
      (fun _ h => ⟨h.1, h.2.1⟩)⟩

end PlyCustomWritingPointsProcessor

/-! ## Aborts of `Process` -/

theorem bind_eq_error {ε α β : Type} {x : Except ε α} {f : α → Except ε β} {e : ε}
    (h : x >>= f = Except.error e) :
    x = Except.error e ∨ ∃ a, x = Except.ok a ∧ f a = Except.error e := by
  cases x with
  | error e' =>
    left
    simpa [bind, Except.bind] using h
  | ok a => exact Or.inr ⟨a, rfl, h⟩

theorem checkWrite_error (fw : FileWriter) (t t' : Trace) (bytes : List Nat) (f : Fatal)
    (h : checkWrite fw t bytes = Except.error (f, t')) : f.isCheckEq = false := by
  simp only [checkWrite] at h
  split at h
  · cases h
  · cases h
    rfl

theorem checkWriteHeader_error (fw : FileWriter) (t t' : Trace) (bytes : List Nat) (f : Fatal)
    (h : checkWriteHeader fw t bytes = Except.error (f, t')) : f.isCheckEq = false := by
  simp only [checkWriteHeader] at h
  split at h
  · cases h
  · cases h
    rfl

theorem color_error (color : FloatColor) (fw : FileWriter) (t t' : Trace) (f : Fatal)
    (h : WriteCustomBinaryPlyPointColor color fw t = Except.error (f, t')) :
    f.isCheckEq = false := by
  unfold WriteCustomBinaryPlyPointColor at h
  rcases bind_eq_error h with h | ⟨t1, -, h⟩
  · exact checkWrite_error _ _ _ _ _ h
  · rcases bind_eq_error h with h | ⟨t2, -, h⟩
    · exact checkWrite_error _ _ _ _ _ h
    · exact checkWrite_error _ _ _ _ _ h

namespace PlyCustomWritingPointsProcessor

theorem onFile_error (self t : PlyCustomWritingPointsProcessor)
    (call : FileWriter → Trace → Except (Fatal × Trace) Trace) (f : Fatal)
    (hcall : ∀ fw tr f' tr', call fw tr = Except.error (f', tr') → f'.isCheckEq = false)
    (h : self.onFile call = Except.error (f, t)) : f.isCheckEq = false := by
  simp only [onFile] at h
  split at h
  · cases h
  · next f' tr' hc =>
    cases h
    exact hcall _ _ _ _ hc

theorem optional_error (flag : Bool) (self t : PlyCustomWritingPointsProcessor)
    (call : FileWriter → Trace → Except (Fatal × Trace) Trace) (f : Fatal)
    (hcall : ∀ fw tr f' tr', call fw tr = Except.error (f', tr') → f'.isCheckEq = false)
    (h : (if flag = true then self.onFile call else pure self) = Except.error (f, t)) :
    f.isCheckEq = false := by
  cases flag with
  | true => exact onFile_error self t call f hcall (by simpa using h)
  | false =>
    simp only [Bool.false_eq_true, if_false] at h
    cases h

theorem processPoint_error (self t : PlyCustomWritingPointsProcessor) (batch : PointsBatch)
    (i : Nat) (f : Fatal) (h : self.processPoint batch i = Except.error (f, t)) :
    f.isCheckEq = false := by
  have hw : ∀ bytes, ∀ fw tr f' tr',
      checkWrite fw tr bytes = Except.error (f', tr') → f'.isCheckEq = false :=
    fun bytes fw tr f' tr' => checkWrite_error fw tr tr' bytes f'
  unfold processPoint at h
  rcases bind_eq_error h with h | ⟨s1, -, h⟩
  · exact onFile_error _ _ _ _ (hw _) h
  rcases bind_eq_error h with h | ⟨s2, -, h⟩
  · exact optional_error _ _ _ _ _ (fun fw tr f' tr' => color_error _ fw tr tr' f') h
  rcases bind_eq_error h with h | ⟨s3, -, h⟩
  · exact optional_error _ _ _ _ _ (hw _) h
  rcases bind_eq_error h with h | ⟨s4, -, h⟩
  · exact onFile_error _ _ _ _ (hw _) h
  rcases bind_eq_error h with h | ⟨s5, -, h⟩
  · exact optional_error _ _ _ _ _ (hw _) h
  · cases h

theorem processPoints_error (batch : PointsBatch) (indices : List Nat) :
    ∀ (self t : PlyCustomWritingPointsProcessor) (f : Fatal),
      self.processPoints batch indices = Except.error (f, t) → f.isCheckEq = false := by
  induction indices with
  | nil =>
    intro self t f h
    cases h
  | cons i rest ih =>
    intro self t f h
    unfold processPoints at h
    rcases bind_eq_error h with h | ⟨s1, -, h⟩
    · exact processPoint_error _ _ _ _ _ h
    · exact ih _ _ _ h

theorem guarded_checkEq_error (flag : Bool) (self t : PlyCustomWritingPointsProcessor)
    (a b : Nat) (message frame_id : String) (f : Fatal)
    (h : (if flag = true then self.checkEq a b message frame_id else pure self)
      = Except.error (f, t)) :
    t = self ∧ flag = true ∧ a ≠ b := by
  cases flag with
  | false =>
    simp only [Bool.false_eq_true, if_false] at h
    cases h
  | true =>
    simp only [if_true, checkEq] at h
    split at h
    · cases h
    · next hab =>
      cases h
      exact ⟨rfl, rfl, hab⟩

/-- Where a `Process` that aborts on a `CHECK_EQ` stops: right after the
schema decision and the placeholder write, on the first attribute of the
schema whose size differs from the number of points. -/
theorem Process_checkEq_error (self t : PlyCustomWritingPointsProcessor)
    (batch : PointsBatch) (f : Fatal) (hf : f.isCheckEq = true)
    (h : self.Process batch = Except.error (f, t)) :
    t = (self.lockSchema batch).record (self.placeholderEvents batch)
      ∧ ((t.has_colors_ = true ∧ batch.points.length ≠ batch.colors.length)
        ∨ (t.has_intensity_ = true ∧ batch.points.length ≠ batch.intensities.length)
        ∨ (t.has_rings_ = true ∧ batch.points.length ≠ batch.rings.length)) := by
  have hne : ∀ {f' : Fatal}, f'.isCheckEq = false → f' = f → False := by
    intro f' h1 h2
    rw [h2, hf] at h1
    cases h1
  by_cases hb : batch.points = []
  · rw [Process_empty self batch hb] at h
    cases h
  unfold Process at h
  rw [if_neg (by simpa using hb)] at h
  rcases bind_eq_error h with g1 | ⟨s1, h1, g1⟩
  · exfalso
    split at g1
    · exact hne (onFile_error _ _ _ _
        (fun fw tr f' tr' => checkWriteHeader_error fw tr tr' _ f') g1) rfl
    · cases g1
  clear h
  have e1 : s1 = (self.lockSchema batch).record (self.placeholderEvents batch) := by
    unfold lockSchema placeholderEvents
    split at h1
    · next h0 =>
      rw [if_pos h0, if_pos h0]
      exact onFile_header_ok _ _ _ _ _ _ h1
    · next h0 =>
      rw [if_neg h0, if_neg h0]
      cases h1
      simp
  clear h1
  rcases bind_eq_error g1 with g2 | ⟨s2, h2, g2⟩
  · obtain ⟨ht, hflag, hlen⟩ := guarded_checkEq_error _ _ _ _ _ _ _ _ g2
    subst ht
    exact ⟨e1, Or.inl ⟨hflag, hlen⟩⟩
  clear g1
  obtain ⟨e2, -⟩ := guarded_checkEq_ok _ _ _ _ _ _ _ h2
  clear h2
  subst e2
  rcases bind_eq_error g2 with g3 | ⟨s3, h3, g3⟩
  · obtain ⟨ht, hflag, hlen⟩ := guarded_checkEq_error _ _ _ _ _ _ _ _ g3
    subst ht
    exact ⟨e1, Or.inr (Or.inl ⟨hflag, hlen⟩)⟩
  clear g2
  obtain ⟨e3, -⟩ := guarded_checkEq_ok _ _ _ _ _ _ _ h3
  clear h3
  subst e3
  rcases bind_eq_error g3 with g4 | ⟨s4, h4, g4⟩
  · obtain ⟨ht, hflag, hlen⟩ := guarded_checkEq_error _ _ _ _ _ _ _ _ g4
    subst ht
    exact ⟨e1, Or.inr (Or.inr ⟨hflag, hlen⟩)⟩
  clear g3
  obtain ⟨e4, -⟩ := guarded_checkEq_ok _ _ _ _ _ _ _ h4
  clear h4
  subst e4
  rcases bind_eq_error g4 with g5 | ⟨s5, -, g5⟩
  · exact (hne (processPoints_error _ _ _ _ _ g5) rfl).elim
  · cases g5

/-- C18: whenever `Process` aborts on a schema violation (a failed
`CHECK_EQ`), some attribute of the schema has a size different from the
number of points, and at the abort no byte has been appended to the body
since the call began, the counter is what it was, and the batch has not been
forwarded to the next stage. -/
theorem schema_violation_aborts_before_encoding (self t : PlyCustomWritingPointsProcessor)
    (batch : PointsBatch) (message : String)
    (h : self.Process batch = Except.error (Fatal.CheckEq message, t)) :
    bodyBytes t.trace = bodyBytes self.trace
      ∧ t.num_points_ = self.num_points_
      ∧ forwarded t.trace = forwarded self.trace
      ∧ ((t.has_colors_ = true ∧ batch.points.length ≠ batch.colors.length)
        ∨ (t.has_intensity_ = true ∧ batch.points.length ≠ batch.intensities.length)
        ∨ (t.has_rings_ = true ∧ batch.points.length ≠ batch.rings.length)) := by
  obtain ⟨ht, hviol⟩ := Process_checkEq_error self t batch (Fatal.CheckEq message) rfl h
  have hl : (self.lockSchema batch).trace = self.trace
      ∧ (self.lockSchema batch).num_points_ = self.num_points_ := by
    unfold lockSchema
    split <;> exact ⟨rfl, rfl⟩
  refine ⟨?_, ?_, ?_, hviol⟩
  · rw [ht]
    show bodyBytes ((self.lockSchema batch).trace ++ _) = _
    rw [hl.1, bodyBytes_append]
    unfold placeholderEvents
    split <;> simp [bodyBytes]
  · rw [ht]
    exact hl.2
  · rw [ht]
    show forwarded ((self.lockSchema batch).trace ++ _) = _
    rw [hl.1, forwarded_append]
    unfold placeholderEvents
    split <;> simp [forwarded]

theorem schema_violation_aborts_before_encoding_witness :
    (finalState ((create acceptingFileWriter finishingNext).Process colorBatch)).Process
          plainBatch
        = Except.error (Fatal.CheckEq
            "First PointsBatch had colors, but encountered one without. frame_id: laser",
            finalState ((create acceptingFileWriter finishingNext).Process colorBatch))
      ∧ (bodyBytes (finalState
          ((create acceptingFileWriter finishingNext).Process colorBatch)).trace).length = 23
      ∧ forwarded (finalState
          ((create acceptingFileWriter finishingNext).Process colorBatch)).trace = [colorBatch] :=
  ⟨rfl,
    (congrArg List.length (schema_violation_aborts_before_encoding
      (finalState ((create acceptingFileWriter finishingNext).Process colorBatch)) _
      plainBatch _ rfl).1).trans (by decide),
    (schema_violation_aborts_before_encoding
      (finalState ((create acceptingFileWriter finishingNext).Process colorBatch)) _
      plainBatch _ rfl).2.2.1.trans (by decide)⟩

end PlyCustomWritingPointsProcessor

/-! ## Counts of 10^15 and more -/

namespace PlyCustomWritingPointsProcessor

/-- When the header write and the close are accepted and the next stage
reports `kFinished`, `Flush` returns `kFinished`. -/
theorem Flush_accept (self : PlyCustomWritingPointsProcessor)
    (hw : self.file_.WriteHeader self.trace (stringBytes
      (headerText self.has_colors_ self.has_intensity_ self.has_rings_ self.num_points_))
        = true)
    (hc : self.file_.Close (self.trace ++ [Event.WriteHeader (stringBytes
      (headerText self.has_colors_ self.has_intensity_ self.has_rings_ self.num_points_))])
        = true)
    (hn : self.next_.Flush (self.trace ++ [Event.WriteHeader (stringBytes
      (headerText self.has_colors_ self.has_intensity_ self.has_rings_ self.num_points_))]
        ++ [Event.Close]) = FlushResult.kFinished) :
    self.Flush = Except.ok (FlushResult.kFinished, self.record
      [Event.WriteHeader (stringBytes
          (headerText self.has_colors_ self.has_intensity_ self.has_rings_ self.num_points_)),
        Event.Close, Event.NextFlush]) := by
  unfold Flush
  simp only [onFile, WriteCustomBinaryPlyHeader, checkWriteHeader, checkClose, bind,
    Except.bind, pure, Except.pure, hw, hc, hn, if_true]
  simp [record]

/-- The three ways in which `Flush` aborts: the header write is rejected, the
close fails, or the next stage asks for a restart. -/
theorem Flush_abort_cases (self t : PlyCustomWritingPointsProcessor) (f : Fatal)
    (h : self.Flush = Except.error (f, t)) :
    self.file_.WriteHeader self.trace (stringBytes
        (headerText self.has_colors_ self.has_intensity_ self.has_rings_ self.num_points_))
          = false
      ∨ self.file_.Close (self.trace ++ [Event.WriteHeader (stringBytes
          (headerText self.has_colors_ self.has_intensity_ self.has_rings_ self.num_points_))])
          = false
      ∨ self.next_.Flush (self.trace ++ [Event.WriteHeader (stringBytes
          (headerText self.has_colors_ self.has_intensity_ self.has_rings_ self.num_points_))]
            ++ [Event.Close]) = FlushResult.kRestartStream := by
  cases hw : self.file_.WriteHeader self.trace (stringBytes
      (headerText self.has_colors_ self.has_intensity_ self.has_rings_ self.num_points_))
  · exact Or.inl rfl
  cases hc : self.file_.Close (self.trace ++ [Event.WriteHeader (stringBytes
      (headerText self.has_colors_ self.has_intensity_ self.has_rings_ self.num_points_))])
  · exact Or.inr (Or.inl rfl)
  cases hn : self.next_.Flush (self.trace ++ [Event.WriteHeader (stringBytes
      (headerText self.has_colors_ self.has_intensity_ self.has_rings_ self.num_points_))]
        ++ [Event.Close])
  · exact Or.inr (Or.inr rfl)
  · rw [Flush_accept self hw hc hn] at h
    cases h

end PlyCustomWritingPointsProcessor

set_option maxRecDepth 20000 in
/-- C3 (counterexample): with a count of 10^15 and a file writer that accepts
the write, `WriteCustomBinaryPlyHeader` does not abort; the bytes it hands over
spell a header whose count line carries the 16 digits of the count. Likewise
`Flush` on a stage whose counter is 10^15 returns `kFinished`, having handed
over that header. -/
theorem header_count_overflow_not_fatal :
    WriteCustomBinaryPlyHeader false false false (10 ^ 15) acceptingFileWriter []
        = Except.ok [Event.WriteHeader (stringBytes (headerText false false false (10 ^ 15)))]
      ∧ (splitLines (headerText false false false (10 ^ 15)).toList)[3]?
        = some "element vertex 1000000000000000".toList
      ∧ (splitLines (bytesText (stringBytes (headerText false false false (10 ^ 15)))))[3]?
        = some "element vertex 1000000000000000".toList
      ∧ overflowingStage.num_points_ = 10 ^ 15
      ∧ overflowingStage.Flush
        = Except.ok (FlushResult.kFinished, overflowingStage.record
            [Event.WriteHeader (stringBytes (headerText false false false (10 ^ 15))),
              Event.Close, Event.NextFlush])
      ∧ (headerWrites (PlyCustomWritingPointsProcessor.flushState
            overflowingStage.Flush).trace).map (fun bytes => (splitLines (bytesText bytes))[3]?)
        = [some "element vertex 1000000000000000".toList] := by
  refine ⟨rfl, by decide, by decide, rfl, rfl, by decide⟩

/-- C3 (amended): for every schema and every count n ≥ 10^15,
`WriteCustomBinaryPlyHeader` aborts only if the file writer rejects the header
write; when the write is accepted it succeeds. The bytes it hands over are
ASCII codes and spell a header whose count field is the full decimal
representation of n, not padded and not truncated, more than 15 digits wide,
so that this header is longer than the one rendered for count 0. `Flush` on a
stage whose counter is n hands over that same header whatever it ends in; it
aborts only if the header write is rejected, the close fails or the next
stage asks for a restart, and it returns `kFinished` when the header write and
the close are accepted and the next stage reports `kFinished`. -/
theorem header_count_overflow_widens (has_color has_intensity has_ring : Bool) (n : Int)
    (file_writer : FileWriter) (trace : Trace) (h : 10 ^ 15 ≤ n) :
    (file_writer.WriteHeader trace
          (stringBytes (headerText has_color has_intensity has_ring n)) = true →
        WriteCustomBinaryPlyHeader has_color has_intensity has_ring n file_writer trace
          = Except.ok (trace ++
              [Event.WriteHeader (stringBytes (headerText has_color has_intensity has_ring n))]))
      ∧ (putInt64 15 '0' n).toList = decimalDigits n.toNat
      ∧ ("element vertex ".toList ++ decimalDigits n.toNat)
          ∈ splitLines (headerText has_color has_intensity has_ring n).toList
      ∧ 15 < (decimalDigits n.toNat).length
      ∧ (decimalValue (decimalDigits n.toNat) : Int) = n
      ∧ (stringBytes (headerText has_color has_intensity has_ring 0)).length
          < (stringBytes (headerText has_color has_intensity has_ring n)).length
      ∧ (∀ f t, WriteCustomBinaryPlyHeader has_color has_intensity has_ring n file_writer trace
            = Except.error (f, t) →
          file_writer.WriteHeader trace
            (stringBytes (headerText has_color has_intensity has_ring n)) = false)
      ∧ (∀ b ∈ stringBytes (headerText has_color has_intensity has_ring n), b < 128)
      ∧ ("element vertex ".toList ++ decimalDigits n.toNat)
          ∈ splitLines (bytesText (stringBytes (headerText has_color has_intensity has_ring n)))
      ∧ declaredCount (bytesText (stringBytes (headerText has_color has_intensity has_ring n)))
          = some n.toNat
      ∧ ∀ self : PlyCustomWritingPointsProcessor,
          self.has_colors_ = has_color → self.has_intensity_ = has_intensity →
          self.has_rings_ = has_ring → self.num_points_ = n →
          headerWrites (PlyCustomWritingPointsProcessor.flushState self.Flush).trace
              = headerWrites self.trace
                ++ [stringBytes (headerText has_color has_intensity has_ring n)]
            ∧ (∀ f t, self.Flush = Except.error (f, t) →
                self.file_.WriteHeader self.trace
                    (stringBytes (headerText has_color has_intensity has_ring n)) = false
                  ∨ self.file_.Close (self.trace ++ [Event.WriteHeader
                      (stringBytes (headerText has_color has_intensity has_ring n))]) = false
                  ∨ self.next_.Flush (self.trace ++ [Event.WriteHeader
                      (stringBytes (headerText has_color has_intensity has_ring n))]
                        ++ [Event.Close]) = FlushResult.kRestartStream)
            ∧ (self.file_.WriteHeader self.trace
                  (stringBytes (headerText has_color has_intensity has_ring n)) = true →
                self.file_.Close (self.trace ++ [Event.WriteHeader
                  (stringBytes (headerText has_color has_intensity has_ring n))]) = true →
                self.next_.Flush (self.trace ++ [Event.WriteHeader
                  (stringBytes (headerText has_color has_intensity has_ring n))]
                    ++ [Event.Close]) = FlushResult.kFinished →
                self.Flush = Except.ok (FlushResult.kFinished, self.record
                  [Event.WriteHeader
                      (stringBytes (headerText has_color has_intensity has_ring n)),
                    Event.Close, Event.NextFlush])) := by
  have h0 : 0 ≤ n := le_trans (by norm_num) h
  obtain ⟨hfield, hlen⟩ := putInt64_toList_large n h
  have hline : ("element vertex ".toList ++ decimalDigits n.toNat)
      ∈ splitLines (headerText has_color has_intensity has_ring n).toList := by
    rw [headerLines _ _ _ n h0, hfield]
    simp
  refine ⟨?_, hfield, hline, hlen, ?_, ?_, ?_, headerBytes_ascii _ _ _ n h0, ?_, ?_, ?_⟩
  · intro hw
    simp [WriteCustomBinaryPlyHeader, checkWriteHeader, hw]
  · unfold decimalDigits
    rw [decimalDigitsAux_value _ _ (Nat.lt_succ_self _)]
    exact Int.toNat_of_nonneg h0
  · rw [headerBytes_length, headerBytes_length, hfield,
      putInt64_length_small 0 (le_refl 0) (by norm_num)]
    omega
  · intro f t herr
    simp only [WriteCustomBinaryPlyHeader, checkWriteHeader] at herr
    split at herr
    · cases herr
    · next hw => simpa using hw
  · rw [bytesText_stringBytes]
    exact hline
  · rw [bytesText_stringBytes]
    exact declaredCount_headerText _ _ _ n h0
  · intro self e1 e2 e3 e4
    subst e1 e2 e3 e4
    exact ⟨PlyCustomWritingPointsProcessor.Flush_headerWrites self,
      fun f t herr => PlyCustomWritingPointsProcessor.Flush_abort_cases self t f herr,
      PlyCustomWritingPointsProcessor.Flush_accept self⟩

set_option maxRecDepth 20000 in
theorem header_count_overflow_widens_witness :
    (10 ^ 15 : Int) ≤ 1234567890123456
      ∧ (putInt64 15 '0' 1234567890123456).toList = "1234567890123456".toList
      ∧ (stringBytes (headerText true true true 0)).length
          < (stringBytes (headerText true true true 1234567890123456)).length
      ∧ declaredCount (bytesText (stringBytes (headerText true true true 1234567890123456)))
          = some 1234567890123456
      ∧ (splitLines (bytesText
            (stringBytes (headerText true true true 1234567890123456))))[3]?
          = some "element vertex 1234567890123456".toList :=
  ⟨by decide,
    (header_count_overflow_widens true true true 1234567890123456 acceptingFileWriter []
      (by decide)).2.1.trans (by decide),
    (header_count_overflow_widens true true true 1234567890123456 acceptingFileWriter []
      (by decide)).2.2.2.2.2.1,
    (header_count_overflow_widens true true true 1234567890123456 acceptingFileWriter []
      (by decide)).2.2.2.2.2.2.2.2.2.1.trans (by decide),
    by decide⟩

end io
end cartographer
